import Mathlib

/-!
Shallow embedding of `src/recommender.ts` (a TF-IDF / collaborative-filtering
product recommender) and proofs about it.

Modelling conventions:
* JavaScript numbers are modelled as exact arithmetic: integer-weight
  bookkeeping (interaction weights, popularity sums) lives in `ℚ`,
  similarity scores (which involve `Math.log` / `Math.sqrt`) live in `ℝ`.
* A JavaScript `Map` is modelled as an insertion-ordered association list
  (`List (key × value)`): `alGet` is `Map.get`, `alSet` is `Map.set`
  (replacing in place when the key is present, appending otherwise).
* `Array.prototype.sort` with the comparator `(a, b) => b.score - a.score`
  is modelled as a comparison sort producing a score-descending list
  (`List.insertionSort`); the source does not fix an order for ties.
* Optional / possibly-`undefined` inputs are `Option`; JavaScript string
  truthiness (`""` is falsy) is `strTruthy`.
* `String.prototype.toLowerCase` and NFKD normalization are modelled on the
  character repertoire the repository exercises (ASCII plus the accented
  Latin letters named in the tokenizer's allowlist); other code points are
  left unchanged.
-/

namespace Loja

/-! ## Association lists modelling JavaScript `Map` -/

/-- Lookup of a key in an insertion-ordered association list (`Map.get`). -/
def alGet {α β : Type _} [DecidableEq α] : List (α × β) → α → Option β
  | [], _ => none
  | (k', v) :: rest, k => if k' = k then some v else alGet rest k

/-- Value at a key with a default (`m.get(k) || 0` on absent key). -/
def alGetD {α β : Type _} [DecidableEq α] (m : List (α × β)) (k : α) (d : β) : β :=
  (alGet m k).getD d

/-- JavaScript `Map.set`: replace the value in place when the key is present,
append the pair otherwise. -/
def alSet {α β : Type _} [DecidableEq α] (m : List (α × β)) (k : α) (v : β) : List (α × β) :=
  if (alGet m k).isSome then m.map (fun kv => if kv.1 = k then (kv.1, v) else kv)
  else m ++ [(k, v)]

/-- Keys of an association list in insertion order (`Map.keys()`). -/
def alKeys {α β : Type _} (m : List (α × β)) : List α := m.map (·.1)

/-- First-seen-order deduplication (JavaScript `Set` built from a list). -/
def dedupFS {α : Type _} [DecidableEq α] (l : List α) : List α :=
  l.foldl (fun acc x => if x ∈ acc then acc else acc ++ [x]) []

/-! ## Strings: trim, lower-case, canonical ids -/

/-- Characters treated as whitespace by the tokenizer's `\s` and by `trim`. -/
def jsWhitespace (c : Char) : Bool :=
  c = ' ' ∨ c = '\t' ∨ c = '\n' ∨ c = '\r' ∨ c = '\x0b' ∨ c = '\x0c' ∨ c = ' '

/-- Lower-casing one character: ASCII letters plus the accented Latin
letters the tokenizer's allowlist names. -/
def jsCharToLower (c : Char) : Char :=
  if 'A' ≤ c ∧ c ≤ 'Z' then Char.ofNat (c.toNat + 32)
  else if c = 'Á' then 'á' else if c = 'É' then 'é' else if c = 'Í' then 'í'
  else if c = 'Ó' then 'ó' else if c = 'Ú' then 'ú' else if c = 'Ã' then 'ã'
  else if c = 'Õ' then 'õ' else if c = 'Â' then 'â' else if c = 'Ê' then 'ê'
  else if c = 'Î' then 'î' else if c = 'Ô' then 'ô' else if c = 'Û' then 'û'
  else if c = 'Ç' then 'ç' else c

/-- Model of `String.prototype.toLowerCase`. -/
def jsToLower (s : String) : String := String.mk (s.data.map jsCharToLower)

/-- Model of `String.prototype.trim`. -/
def jsTrim (s : String) : String :=
  String.mk (((s.data.dropWhile (jsWhitespace ·)).reverse.dropWhile (jsWhitespace ·)).reverse)

/-- Canonical id: `s.trim().toLowerCase()`. -/
def canon (s : String) : String := jsToLower (jsTrim s)

/-- JavaScript truthiness of an optional string (`undefined` and `""` are falsy). -/
def strTruthy : Option String → Bool
  | none => false
  | some s => s ≠ ""

/-! ## Tokenizer -/

/-- NFKD decomposition on the repertoire exercised here: each precomposed
accented Latin letter of the tokenizer's allowlist splits into its base
letter followed by a combining mark; other characters are unchanged. -/
def nfkdChar (c : Char) : List Char :=
  if c = 'á' then ['a', '́'] else if c = 'é' then ['e', '́']
  else if c = 'í' then ['i', '́'] else if c = 'ó' then ['o', '́']
  else if c = 'ú' then ['u', '́'] else if c = 'ã' then ['a', '̃']
  else if c = 'õ' then ['o', '̃'] else if c = 'â' then ['a', '̂']
  else if c = 'ê' then ['e', '̂'] else if c = 'î' then ['i', '̂']
  else if c = 'ô' then ['o', '̂'] else if c = 'û' then ['u', '̂']
  else if c = 'ç' then ['c', '̧'] else [c]

/-- Characters kept by the tokenizer's character class
`[a-z0-9\sáéíóúãõâêîôûç"]`; everything else becomes a space. -/
def tokenChar (c : Char) : Bool :=
  ('a' ≤ c ∧ c ≤ 'z') ∨ ('0' ≤ c ∧ c ≤ '9') ∨ jsWhitespace c ∨
    c = 'á' ∨ c = 'é' ∨ c = 'í' ∨ c = 'ó' ∨ c = 'ú' ∨ c = 'ã' ∨ c = 'õ' ∨
    c = 'â' ∨ c = 'ê' ∨ c = 'î' ∨ c = 'ô' ∨ c = 'û' ∨ c = 'ç' ∨ c = '"'

/-- Splitting a character list at whitespace (`split(/\s+/)`); empty pieces
may appear but are discarded by the length filter of `tokenize`. -/
def splitWsAux : List Char → List Char → List (List Char)
  | [], acc => [acc.reverse]
  | c :: cs, acc =>
    if jsWhitespace c then acc.reverse :: splitWsAux cs [] else splitWsAux cs (c :: acc)

def splitWs (cs : List Char) : List (List Char) := splitWsAux cs []

/-- The tokenizer: lower-case, NFKD-normalize, replace disallowed characters
with spaces, split on whitespace runs, keep tokens of length > 1. -/
def tokenize (s : String) : List String :=
  let cs := ((jsToLower s).data.flatMap nfkdChar).map (fun c => if tokenChar c then c else ' ')
  ((splitWs cs).map String.mk).filter (fun t => 1 < t.length)

/-! ## Products, interactions, engine state -/

structure Product where
  product_id : String
  title : String
  categories : List String
  price : ℚ
  deriving DecidableEq, Repr

/-- Model of `Number.prototype.toFixed(2)` for the non-negative exact prices
of the catalog: round to a whole number of cents, print with two decimals. -/
def toFixed2 (q : ℚ) : String :=
  let n : ℤ := Int.floor (q * 100 + 1 / 2)
  toString (n / 100) ++ "." ++ (if n % 100 < 10 then "0" else "") ++ toString (n % 100)

/-- The document synthesized for a product:
`` `${p.title} ${p.categories.join(" ")} ${p.price.toFixed(2)}` ``. -/
def docText (p : Product) : String :=
  p.title ++ " " ++ String.intercalate " " p.categories ++ " " ++ toFixed2 p.price

inductive InteractionType where
  | view | cart | purchase
  deriving DecidableEq, Repr

/-- Interaction weights: view = 1, cart = 3, purchase = 5. -/
def WEIGHT : InteractionType → ℚ
  | .view => 1
  | .cart => 3
  | .purchase => 5

/-- An interaction event as submitted (`ts` optional). -/
structure EventIn where
  user_id : String
  product_id : String
  type : InteractionType
  ts : Option ℕ
  deriving DecidableEq, Repr

/-- A stored interaction (canonicalized ids, timestamp assigned). -/
structure Interaction where
  user_id : String
  product_id : String
  type : InteractionType
  ts : ℕ
  deriving DecidableEq, Repr

/-- The engine's mutable state: the immutable catalog snapshot (from which
the `_cache` model and `byId` map are derived deterministically), the
append-only interaction list, and the per-user sparse vectors. -/
structure EngineState where
  products : List Product
  interactions : List Interaction
  userVectors : List (String × List (String × ℚ))
  deriving DecidableEq, Repr

/-- The state right after `initRecommender()` on a given catalog. -/
def mkState (products : List Product) : EngineState :=
  { products := products, interactions := [], userVectors := [] }

/-- The `byId` map: `new Map(products.map((p) => [p.product_id, p]))`. -/
def byId (s : EngineState) : List (String × Product) :=
  s.products.foldl (fun m p => alSet m p.product_id p) []

/-- Result record of `registerEvent` (`ignored` is absent on success). -/
structure RegisterResult where
  ok : Bool
  ignored : Option Bool
  deriving DecidableEq, Repr

/-- `registerEvent`: canonicalize the ids, reject events whose product id is
not in the catalog, otherwise append the interaction (stamping `now` when no
timestamp was supplied) and add the type's weight to the user's sparse
vector entry. `now` stands for `Date.now()`. -/
def registerEvent (now : ℕ) (s : EngineState) (ev : EventIn) :
    RegisterResult × EngineState :=
  let pid := canon ev.product_id
  let uid := canon ev.user_id
  if (alGet (byId s) pid).isSome then
    let ts := ev.ts.getD now
    let vec := (alGet s.userVectors uid).getD []
    let vec := alSet vec pid (alGetD vec pid 0 + WEIGHT ev.type)
    (⟨true, none⟩,
      { s with
        interactions := s.interactions ++ [⟨uid, pid, ev.type, ts⟩],
        userVectors := alSet s.userVectors uid vec })
  else (⟨false, some true⟩, s)

/-! ## TF-IDF model (`buildTFIDF`) -/

/-- The token lists of all synthesized documents, in catalog order. -/
def tokenizedDocs (products : List Product) : List (List String) :=
  products.map (fun p => tokenize (docText p))

/-- The vocabulary in first-seen order; a term's index is its position. -/
def vocabList (products : List Product) : List String :=
  dedupFS (tokenizedDocs products).flatten

/-- Document frequency of a term: the number of documents containing it at
least once (the source increments once per document via a `seen` set). -/
def dfCount (products : List Product) (t : String) : ℕ :=
  ((tokenizedDocs products).filter (fun toks => t ∈ toks)).length

/-- Smoothed inverse document frequency of the term at index `j`:
`ln((N + 1) / (df + 1)) + 1`, with the source's `df.get(term) || 1` default. -/
noncomputable def idfAt (products : List Product) (j : ℕ) : ℝ :=
  match (vocabList products).get? j with
  | none => 0
  | some t =>
    let N := (tokenizedDocs products).length
    let dfi := if dfCount products t = 0 then 1 else dfCount products t
    Real.log ((N + 1) / (dfi + 1)) + 1

/-- Number of occurrences of a term in a token list (the source's `tf` map
entry for that term's index). -/
def countOcc (t : String) (toks : List String) : ℕ := (toks.filter (· = t)).length

/-- The raw (un-normalized) TF-IDF vector of one document:
component `j` is `(count / toks.length) * idf[j]`. -/
noncomputable def rawVector (products : List Product) (toks : List String) : List ℝ :=
  (List.range (vocabList products).length).map (fun j =>
    match (vocabList products).get? j with
    | none => 0
    | some t => ((countOcc t toks : ℝ) / toks.length) * idfAt products j)

/-- Sum of squares of a dense vector. -/
def sumSq (v : List ℝ) : ℝ := (v.map (fun x => x * x)).sum

/-- Normalization step of `buildTFIDF` / `getVectorFromText`:
`norm = Math.sqrt(sum) || 1`, then divide every component by it. -/
noncomputable def normalizeVec (v : List ℝ) : List ℝ :=
  let norm := Real.sqrt (sumSq v)
  let norm := if norm = 0 then 1 else norm
  v.map (· / norm)

/-- The stored (unit-normalized) content vector of one product. -/
noncomputable def docVector (products : List Product) (p : Product) : List ℝ :=
  normalizeVec (rawVector products (tokenize (docText p)))

/-- The `vectors` map of `buildTFIDF`: product id → stored vector, built in
catalog order (`vectors.set(d.id, vec)`). -/
noncomputable def tfidfVectors (products : List Product) : List (String × List ℝ) :=
  products.foldl (fun m p => alSet m p.product_id (docVector products p)) []

/-! ## Similarity engine -/

/-- The loop `for (let i = 0; i < n; i++) acc += f(i)`. -/
def loopSum (n : ℕ) (f : ℕ → ℝ) : ℝ := ((List.range n).map f).sum

/-- Dense cosine: the source iterates `i < a.length`, so `b` is read with a
default of `0` past its end; returns `0` when either accumulated magnitude
is `0` (falsy). -/
noncomputable def cosine (a b : List ℝ) : ℝ :=
  if loopSum a.length (fun i => a.getD i 0 * a.getD i 0) = 0 ∨
      loopSum a.length (fun i => b.getD i 0 * b.getD i 0) = 0 then 0
  else
    loopSum a.length (fun i => a.getD i 0 * b.getD i 0) /
      Real.sqrt (loopSum a.length (fun i => a.getD i 0 * a.getD i 0) *
        loopSum a.length (fun i => b.getD i 0 * b.getD i 0))

/-- Squared magnitude of a sparse map (a `for..of` loop accumulating `v * v`). -/
def sumSqSparse (m : List (String × ℚ)) : ℚ := (m.map (fun kv => kv.2 * kv.2)).sum

/-- Sparse cosine over user vectors: magnitudes summed per map; the dot
product iterates the smaller map and probes the larger (a missing or zero
probe contributes nothing); returns `0` when either magnitude is `0`. -/
noncomputable def cosineSparse (a b : List (String × ℚ)) : ℝ :=
  if sumSqSparse a = 0 ∨ sumSqSparse b = 0 then 0
  else
    let smaller := if a.length < b.length then a else b
    let bigger := if a.length < b.length then b else a
    let dot : ℚ := (smaller.map (fun kv => kv.2 * alGetD bigger kv.1 0)).sum
    (dot : ℝ) / Real.sqrt ((sumSqSparse a : ℝ) * (sumSqSparse b : ℝ))

/-! ## Content recommenders -/

/-- A product record augmented with a score (the spread `{...p, score}`). -/
structure ScoredProduct where
  product : Product
  score : ℝ

/-- Rounding to four decimal places (`Number(x.toFixed(4))`). -/
noncomputable def round4 (x : ℝ) : ℝ := (⌊x * 10000 + 1 / 2⌋ : ℤ) / 10000

/-- Descending sort by score, modelling `sort((a, b) => b.score - a.score)`. -/
noncomputable def sortByScoreDesc {α : Type _} (score : α → ℝ) (l : List α) : List α :=
  l.insertionSort (fun x y => score y ≤ score x)

/-- `getVectorFromText`: tokenize, count in-vocabulary tokens (out-of-vocabulary
tokens are dropped but still count toward `toks.length`), weight by idf,
normalize. -/
noncomputable def getVectorFromText (products : List Product) (text : String) : List ℝ :=
  let toks := tokenize text
  normalizeVec ((List.range (vocabList products).length).map (fun j =>
    match (vocabList products).get? j with
    | none => 0
    | some t => ((countOcc t toks : ℝ) / toks.length) * idfAt products j))

/-- `recommendByProductId`: unknown seed gives `[]`; otherwise every other
product is scored by cosine against the seed's stored vector, sorted
descending, truncated, and rounded. -/
noncomputable def recommendByProductId (s : EngineState) (productId : String) (limit : ℕ) :
    List ScoredProduct :=
  let pid := canon productId
  match alGet (tfidfVectors s.products) pid with
  | none => []
  | some baseVec =>
    let scores := (s.products.filter (fun p => p.product_id ≠ pid)).filterMap (fun p =>
      (alGet (tfidfVectors s.products) p.product_id).map (fun v =>
        ScoredProduct.mk p (cosine baseVec v)))
    ((sortByScoreDesc (·.score) scores).take limit).map (fun r =>
      { r with score := round4 r.score })

/-- `recommendByQuery`: every product scored by cosine against the query
vector, sorted descending, truncated, rounded. -/
noncomputable def recommendByQuery (s : EngineState) (query : String) (limit : ℕ) :
    List ScoredProduct :=
  let qvec := getVectorFromText s.products query
  let scores := s.products.filterMap (fun p =>
    (alGet (tfidfVectors s.products) p.product_id).map (fun v =>
      ScoredProduct.mk p (cosine qvec v)))
  ((sortByScoreDesc (·.score) scores).take limit).map (fun r =>
    { r with score := round4 r.score })

/-! ## Collaborative engine -/

/-- `Number.MAX_SAFE_INTEGER`, used as an effectively-unbounded limit. -/
def maxSafeInteger : ℕ := 2 ^ 53 - 1

/-- `topKNeighbors`: sparse cosine of the target user's vector against every
other user's vector, keeping strictly positive similarities, sorted
descending, truncated to `k`. -/
noncomputable def topKNeighbors (s : EngineState) (userId : String) (k : ℕ) :
    List (String × ℝ) :=
  let uid := canon userId
  match alGet s.userVectors uid with
  | none => []
  | some target =>
    let sims := (s.userVectors.filter (fun kv => kv.1 ≠ uid)).filterMap (fun kv =>
      let sim := cosineSparse target kv.2
      if 0 < sim then some (kv.1, sim) else none)
    (sortByScoreDesc (·.2) sims).take k

/-- `popularItems`: every product scored by the sum of `WEIGHT[type]` over
all interactions ever recorded for it, ranked descending, truncated. -/
def popularItems (s : EngineState) (limit : ℕ) : List (String × ℚ) :=
  let counts := s.interactions.foldl (fun m ev =>
    alSet m ev.product_id (alGetD m ev.product_id 0 + WEIGHT ev.type)) []
  (counts.insertionSort (fun x y => y.2 ≤ x.2)).take limit

/-- The popularity rows `popular.map(({product_id, score}) => ({...byId.get(product_id)!, score}))`;
the source's non-null assertion is modelled by skipping a failed lookup. -/
def popularRows (s : EngineState) (limit : ℕ) : List ScoredProduct :=
  (popularItems s limit).filterMap (fun it =>
    (alGet (byId s) it.1).map (fun p => ScoredProduct.mk p ((it.2 : ℝ))))

/-- Neighbor-based candidate scores: for every product in a neighbor's vector
that the target user does not already have, accumulate
`similarity × neighbor weight`. Shared by `recommendForUser` and
`cfScoresForUser` (the source repeats this loop verbatim in both). -/
noncomputable def candidateScores (s : EngineState) (vec : List (String × ℚ))
    (neigh : List (String × ℝ)) : List (String × ℝ) :=
  let owned := alKeys vec
  neigh.foldl (fun cs nb =>
    ((alGet s.userVectors nb.1).getD []).foldl (fun cs pw =>
      if pw.1 ∈ owned then cs else alSet cs pw.1 (alGetD cs pw.1 0 + nb.2 * (pw.2 : ℝ))) cs) []

/-- `recommendForUser`: popularity fallback when the user has no (or an
empty) vector or no candidates survive; otherwise neighbor-aggregated
candidates sorted descending. The rows of the main path carry rounded
scores (`Number(score.toFixed(4))`). -/
noncomputable def recommendForUser (s : EngineState) (userId : String) (limit : ℕ) :
    List ScoredProduct :=
  let uid := canon userId
  match alGet s.userVectors uid with
  | none => (popularRows s limit).map (fun r => { r with score := round4 r.score })
  | some vec =>
    if vec.length = 0 then (popularRows s limit).map (fun r => { r with score := round4 r.score })
    else
      let cs := candidateScores s vec (topKNeighbors s uid 30)
      if cs.length = 0 then (popularRows s limit).map (fun r => { r with score := round4 r.score })
      else
        ((sortByScoreDesc (·.2) cs).take limit).filterMap (fun it =>
          (alGet (byId s) it.1).map (fun p => ScoredProduct.mk p (round4 it.2)))

/-- `cfScoresForUser`: the candidate score map together with the
`hadVector` report; a user with no (or an empty) vector gets the raw
popularity map and `hadVector = false`. -/
noncomputable def cfScoresForUser (s : EngineState) (uid : String) :
    List (String × ℝ) × Bool :=
  let u := canon uid
  match alGet s.userVectors u with
  | none => ((popularItems s maxSafeInteger).map (fun it => (it.1, (it.2 : ℝ))), false)
  | some vec =>
    if vec.length = 0 then
      ((popularItems s maxSafeInteger).map (fun it => (it.1, (it.2 : ℝ))), false)
    else (candidateScores s vec (topKNeighbors s u 30), true)

/-! ## Blend engine -/

/-- Options of `recommendBlend` (every field optional, as in the source). -/
structure BlendOpts where
  userId : Option String := none
  productId : Option String := none
  query : Option String := none
  alpha : Option ℝ := none
  limit : Option ℕ := none
  biasCats : Option (List String) := none
  beta : Option ℝ := none
  excludeSeen : Option Bool := none
  excludeSeed : Option Bool := none

/-- One output row of the blend: the product record spread together with the
rounded score and the accumulated reason tags. -/
structure BlendRow where
  product : Product
  score : ℝ
  reasons : List String

/-- `toMapFromArray` on a list of scored rows. -/
def toMapFromArray (arr : List ScoredProduct) : List (String × ℝ) :=
  arr.foldl (fun m it => alSet m it.product.product_id it.score) []

/-- The maximum-accumulating loop of `normalize01`
(`let max = 0; for v of m.values() if (v > max) max = v`). -/
noncomputable def norMax (m : List (String × ℝ)) : ℝ :=
  m.foldl (fun acc kv => if acc < kv.2 then kv.2 else acc) 0

/-- `normalize01`: rescale a score map so its maximum becomes 1; a map whose
maximum is not positive becomes empty. -/
noncomputable def normalize01 (m : List (String × ℝ)) : List (String × ℝ) :=
  if norMax m ≤ 0 then [] else m.map (fun kv => (kv.1, kv.2 / norMax m))

/-- `contentScoresFromSeed`: the full (untruncated) content ranking around a
seed, as a map. -/
noncomputable def contentScoresFromSeed (s : EngineState) (pid : String) : List (String × ℝ) :=
  toMapFromArray (recommendByProductId s pid maxSafeInteger)

/-- `contentScoresFromQuery`: the full content ranking for a query, as a map. -/
noncomputable def contentScoresFromQuery (s : EngineState) (q : String) : List (String × ℝ) :=
  toMapFromArray (recommendByQuery s q maxSafeInteger)

/-- `addReason`: the per-product reason set, modelled as an insertion-ordered
list without duplicates. -/
def addReason (rs : List (String × List String)) (pid r : String) :
    List (String × List String) :=
  let cur := alGetD rs pid []
  alSet rs pid (if r ∈ cur then cur else cur ++ [r])

/-- Merging one content score map into the accumulator: per product the
maximum contributed score (`Math.max(content.get(k) || 0, v)`), tagging
each touched product. -/
def mergeContent (acc : List (String × ℝ) × List (String × List String))
    (m : List (String × ℝ)) (tag : String) :
    List (String × ℝ) × List (String × List String) :=
  m.foldl (fun acc kv =>
    (alSet acc.1 kv.1 (max (alGetD acc.1 kv.1 0) kv.2), addReason acc.2 kv.1 tag)) acc

/-- `Map.delete` on an association list. -/
def alErase {α β : Type _} [DecidableEq α] (m : List (α × β)) (k : α) : List (α × β) :=
  m.filter (fun kv => kv.1 ≠ k)

/-- The effective parameters of one `recommendBlend` call (clamping and
defaulting exactly as the source's first lines do). -/
noncomputable def blendLimit (opts : BlendOpts) : ℕ := max 1 (min 50 (opts.limit.getD 5))

noncomputable def blendAlpha (opts : BlendOpts) : ℝ := min 1 (max 0 (opts.alpha.getD (1 / 2)))

noncomputable def blendBeta (opts : BlendOpts) : ℝ := min 1 (max 0 (opts.beta.getD 0))

def blendBiasCats (opts : BlendOpts) : List String := (opts.biasCats.getD []).map jsToLower

def blendExcludeSeen (opts : BlendOpts) : Bool := opts.excludeSeen.getD true

def blendExcludeSeed (opts : BlendOpts) : Bool := opts.excludeSeed.getD true

/-- The already-seen set: the requesting user's vector keys, collected only
when a (truthy) user id was supplied and `excludeSeen` holds. -/
def blendHaveSeen (s : EngineState) (opts : BlendOpts) : List String :=
  match opts.userId with
  | some u => if u ≠ "" ∧ blendExcludeSeen opts then
      alKeys ((alGet s.userVectors (canon u)).getD []) else []
  | none => []

/-- The canonical seed id (`undefined` when no truthy product id was given). -/
def blendSeedPid (opts : BlendOpts) : Option String :=
  match opts.productId with
  | some p => if p ≠ "" then some (canon p) else none
  | none => none

/-- The content score map and reason map after the seed and query phases:
seed similarities are merged first (and the seed entry deleted), query
similarities second. -/
noncomputable def blendContent (s : EngineState) (opts : BlendOpts) :
    List (String × ℝ) × List (String × List String) :=
  let acc : List (String × ℝ) × List (String × List String) := ([], [])
  let acc :=
    match blendSeedPid opts with
    | some sp =>
      if sp ≠ "" then
        let acc := mergeContent acc (contentScoresFromSeed s sp) ("similar_to:" ++ sp)
        (alErase acc.1 sp, acc.2)
      else acc
    | none => acc
  if strTruthy opts.query then
    mergeContent acc (contentScoresFromQuery s (opts.query.getD "")) "match_query"
  else acc

/-- The collaborative score map and the reason map extended with
`"neighbors"` / `"popular"` tags for each of its keys. -/
noncomputable def blendCF (s : EngineState) (opts : BlendOpts)
    (rs : List (String × List String)) :
    List (String × ℝ) × List (String × List String) :=
  if strTruthy opts.userId then
    let sc := cfScoresForUser s (opts.userId.getD "")
    (sc.1, (alKeys sc.1).foldl (fun rs k =>
      addReason rs k (if sc.2 then "neighbors" else "popular")) rs)
  else ([], rs)

/-- One candidate of the combination loop: `none` models `continue` (seed
exclusion, seen exclusion, non-positive final score, missing catalog
record); otherwise the row carries the combined-and-biased score and the
candidate's final reason list. -/
noncomputable def blendStep (s : EngineState) (opts : BlendOpts)
    (nContent nCF : List (String × ℝ)) (haveSeen : List String)
    (rs : List (String × List String)) (pid : String) :
    Option (String × ℝ × List String) :=
  if blendExcludeSeed opts ∧ blendSeedPid opts = some pid ∧ pid ≠ "" then none
  else if blendExcludeSeen opts ∧ pid ∈ haveSeen then none
  else
    let sc := blendAlpha opts * alGetD nContent pid 0 +
      (1 - blendAlpha opts) * alGetD nCF pid 0
    let biasHit : Bool := decide (0 < blendBeta opts) && decide (blendBiasCats opts ≠ []) &&
      (match alGet (byId s) pid with
       | some p => p.categories.any (fun c => decide (jsToLower c ∈ blendBiasCats opts))
       | none => false)
    let sc := if biasHit then min 1 (sc + blendBeta opts) else sc
    let cur := alGetD rs pid []
    let rsOut := if biasHit then (if "bias_category" ∈ cur then cur else cur ++ ["bias_category"])
      else cur
    if sc ≤ 0 then none
    else match alGet (byId s) pid with
      | none => none
      | some _ => some (pid, sc, rsOut)

/-- The main path of `recommendBlend` (everything before the empty-result
popularity fallback): build both normalized score maps, combine over the
union of their keys, sort descending and truncate. -/
noncomputable def recommendBlendCore (s : EngineState) (opts : BlendOpts) : List BlendRow :=
  let c := blendContent s opts
  let cf := blendCF s opts c.2
  let nContent := normalize01 c.1
  let nCF := normalize01 cf.1
  let union := dedupFS (alKeys nContent ++ alKeys nCF)
  let combined := union.filterMap
    (blendStep s opts nContent nCF (blendHaveSeen s opts) cf.2)
  ((sortByScoreDesc (·.2.1) combined).take (blendLimit opts)).filterMap (fun x =>
    (alGet (byId s) x.1).map (fun p => BlendRow.mk p (round4 x.2.1) x.2.2))

/-- `recommendBlend`: the main path, except that an empty main result with a
(truthy) user id falls back to the raw popularity ranking tagged
`"popular"`. -/
noncomputable def recommendBlend (s : EngineState) (opts : BlendOpts) : List BlendRow :=
  let top := recommendBlendCore s opts
  if top.isEmpty && strTruthy opts.userId then
    (popularItems s (blendLimit opts)).filterMap (fun it =>
      (alGet (byId s) it.1).map (fun p => BlendRow.mk p (round4 (it.2 : ℝ)) ["popular"]))
  else top

/-! ## Derived state predicates used by the invariant claims -/

/-- The weight the engine's user-vector store holds for user `u` and
product `p` (`none` when the user vector or the entry is absent). -/
def userWeight (s : EngineState) (u p : String) : Option ℚ :=
  (alGet s.userVectors u).bind (fun vec => alGet vec p)

/-- Sum of `WEIGHT[type]` over all recorded interactions of `u` with `p`. -/
def interWeightSum (s : EngineState) (u p : String) : ℚ :=
  ((s.interactions.filter (fun ev => ev.user_id == u && ev.product_id == p)).map
    (fun ev => WEIGHT ev.type)).sum

/-- Whether at least one interaction of `u` with `p` has been recorded. -/
def hasInteraction (s : EngineState) (u p : String) : Bool :=
  s.interactions.any (fun ev => ev.user_id == u && ev.product_id == p)

/-- The user-vector bookkeeping invariant: each stored entry equals the sum
of the weights of that user's recorded interactions with that product, and
the entry exists exactly when such an interaction was accepted. -/
def VectorInv (s : EngineState) : Prop :=
  ∀ u p, userWeight s u p =
    if hasInteraction s u p then some (interWeightSum s u p) else none

/-- Sum of `WEIGHT[type]` over all interactions ever recorded for a product,
across all users (the popularity score of claim C6). -/
def popWeightSum (s : EngineState) (pid : String) : ℚ :=
  ((s.interactions.filter (fun ev => ev.product_id == pid)).map
    (fun ev => WEIGHT ev.type)).sum

/-- The catalog-closure invariant: every product id in the interaction list
or in any user vector is a key of `byId` (claim C10). -/
def CatalogInv (s : EngineState) : Prop :=
  (∀ ev ∈ s.interactions, (alGet (byId s) ev.product_id).isSome) ∧
    (∀ kv ∈ s.userVectors, ∀ pw ∈ kv.2, (alGet (byId s) pw.1).isSome)

/-! ## Concrete scenarios used by witnesses and counterexamples -/

/-- A one-product catalog ("p1", category "c"). -/
def prodShoe : Product := ⟨"p1", "shoe", ["c"], 10⟩

/-- State after `initRecommender` on the one-product catalog and one accepted
`view` event by user `"u1"` on `"p1"`. -/
def s1 : EngineState :=
  { products := [prodShoe],
    interactions := [⟨"u1", "p1", .view, 0⟩],
    userVectors := [("u1", [("p1", 1)])] }

/-- Catalog for the blend-ordering scenario: the seed `"p3"` shares the
token `"common"` with `"p2"` and nothing with `"p1"` (prices are chosen so
the formatted price tokens of distinct products never coincide). -/
def prodP1 : Product := ⟨"p1", "gamma delta", [], 1111 / 100⟩

def prodP2 : Product := ⟨"p2", "beta common", [], 3333 / 100⟩

def prodP3 : Product := ⟨"p3", "alpha common", [], 2222 / 100⟩

/-- State for the blend-ordering scenario: user `"u1"` viewed `"p1"` twice
and `"p2"` once, so `"p1"` is the more popular product. -/
def s8 : EngineState :=
  { products := [prodP1, prodP2, prodP3],
    interactions :=
      [⟨"u1", "p1", .view, 0⟩, ⟨"u1", "p1", .view, 1⟩, ⟨"u1", "p2", .view, 2⟩],
    userVectors := [("u1", [("p1", 2), ("p2", 1)])] }

/-- Blend call with only a user id (all other options at their defaults). -/
def optsC1 : BlendOpts := { userId := some "u1" }

/-- Blend call with a user id and the one catalog product as seed. -/
def optsC2 : BlendOpts := { userId := some "u1", productId := some "p1" }

/-- Blend call with a user id and an active category bias matching `"c"`. -/
def optsC7 : BlendOpts := { userId := some "u1", biasCats := some ["c"], beta := some 1 }

/-- A second catalog product sharing the bias category `"c"`. -/
def prodBoot : Product := ⟨"p2", "boot", ["c"], 20⟩

/-- Two-user state: `"u1"` viewed `"p1"`; `"u2"` viewed `"p1"` and `"p2"`,
so `"u2"` is a positive-similarity neighbor of `"u1"` contributing the
candidate `"p2"`. -/
def s2 : EngineState :=
  { products := [prodShoe, prodBoot],
    interactions :=
      [⟨"u1", "p1", .view, 0⟩, ⟨"u2", "p1", .view, 1⟩, ⟨"u2", "p2", .view, 2⟩],
    userVectors := [("u1", [("p1", 1)]), ("u2", [("p1", 1), ("p2", 1)])] }

/-- Blend call used by the main-path witnesses: user `"u1"`, an unknown
seed id `"p9"`, and an active category bias matching `"c"`. -/
def optsW : BlendOpts :=
  { userId := some "u1", productId := some "p9", biasCats := some ["c"], beta := some 1 }

/-- Blend call for the ordering scenario: user `"u1"`, seed `"p3"`,
`alpha = 1` (pure content), `beta` at its default `0`. -/
def optsC8 : BlendOpts := { userId := some "u1", productId := some "p3", alpha := some 1 }

/-- Catalog products for the two-candidate collaborative scenario. -/
def prodQ0 : Product := ⟨"p0", "a", [], 1⟩

/-- Second catalog product of the two-candidate scenario. -/
def prodQ2 : Product := ⟨"p2", "b", [], 2⟩

/-- Third catalog product of the two-candidate scenario. -/
def prodQ3 : Product := ⟨"p3", "c", [], 3⟩

/-- Two-user state with two fresh collaborative candidates: `"u1"` viewed
`"p0"`; the neighbor `"u2"` viewed `"p0"` and `"p3"` and carted `"p2"`, so
`"u2"` contributes the candidates `"p2"` (weight 3) and `"p3"` (weight 1)
with distinct scores. -/
def s9 : EngineState :=
  { products := [prodQ0, prodQ2, prodQ3],
    interactions :=
      [⟨"u1", "p0", .view, 0⟩, ⟨"u2", "p0", .view, 1⟩, ⟨"u2", "p2", .cart, 2⟩,
        ⟨"u2", "p3", .view, 3⟩],
    userVectors := [("u1", [("p0", 1)]), ("u2", [("p0", 1), ("p2", 3), ("p3", 1)])] }

/-- Blend call with a user id and `alpha = 0` (pure collaborative weight,
`beta` at its default `0`). -/
def opts9 : BlendOpts := { userId := some "u1", alpha := some 0 }

/-! ## Basic lemmas about the association-list operations -/

section ALists

variable {α β : Type _} [DecidableEq α]

@[simp] theorem alGet_nil (k : α) : alGet ([] : List (α × β)) k = none := rfl

@[simp] theorem alGet_cons (k' : α) (v : β) (m : List (α × β)) (k : α) :
    alGet ((k', v) :: m) k = if k' = k then some v else alGet m k := rfl

theorem alGet_append (m m' : List (α × β)) (k : α) :
    alGet (m ++ m') k = ((alGet m k).orElse (fun _ => alGet m' k)) := by
  induction m with
  | nil => simp
  | cons kv rest ih =>
    obtain ⟨k', v⟩ := kv
    by_cases h : k' = k <;> simp [h, ih]

theorem alGet_map_replace (m : List (α × β)) (k k' : α) (v : β) :
    alGet (m.map (fun kv => if kv.1 = k then (kv.1, v) else kv)) k' =
      if k' = k then (alGet m k).map (fun _ => v) else alGet m k' := by
  induction m with
  | nil => simp
  | cons kv rest ih =>
    obtain ⟨k0, v0⟩ := kv
    by_cases h0 : k0 = k
    · subst h0
      by_cases h1 : k0 = k'
      · subst h1
        simp [alGet_cons]
      · have h1' : ¬k' = k0 := fun h => h1 h.symm
        simp [alGet_cons, h1, h1', ih]
    · by_cases h1 : k0 = k'
      · subst h1
        have h0' : ¬k0 = k := h0
        simp [alGet_cons, h0']
      · simp [alGet_cons, h0, h1, ih]

theorem alGet_alSet_self (m : List (α × β)) (k : α) (v : β) :
    alGet (alSet m k v) k = some v := by
  unfold alSet
  by_cases h : (alGet m k).isSome
  · obtain ⟨w, hw⟩ := Option.isSome_iff_exists.mp h
    rw [if_pos h, alGet_map_replace, if_pos rfl, hw]
    rfl
  · have hn : alGet m k = none := Option.not_isSome_iff_eq_none.mp h
    rw [if_neg h, alGet_append, hn]
    simp [alGet_cons]

theorem alGet_alSet_ne (m : List (α × β)) (k k' : α) (v : β) (h : k' ≠ k) :
    alGet (alSet m k v) k' = alGet m k' := by
  unfold alSet
  by_cases hs : (alGet m k).isSome
  · rw [if_pos hs, alGet_map_replace, if_neg h]
  · rw [if_neg hs, alGet_append]
    cases hm : alGet m k' with
    | none => simp [alGet_cons, Ne.symm h]
    | some w => rfl

theorem mem_alSet {m : List (α × β)} {k : α} {v : β} {e : α × β}
    (he : e ∈ alSet m k v) : e ∈ m ∨ e = (k, v) := by
  unfold alSet at he
  by_cases hs : (alGet m k).isSome
  · rw [if_pos hs, List.mem_map] at he
    obtain ⟨kv, hkv, hmap⟩ := he
    by_cases hk : kv.1 = k
    · right
      rw [if_pos hk] at hmap
      rw [← hmap, hk]
    · left
      rw [if_neg hk] at hmap
      rwa [← hmap]
  · rw [if_neg hs, List.mem_append, List.mem_singleton] at he
    exact he

theorem alGet_eq_some_mem {m : List (α × β)} {k : α} {v : β}
    (h : alGet m k = some v) : (k, v) ∈ m := by
  induction m with
  | nil => simp at h
  | cons kv rest ih =>
    obtain ⟨k', v'⟩ := kv
    by_cases hk : k' = k
    · subst hk
      rw [alGet_cons, if_pos rfl] at h
      cases h
      exact List.mem_cons_self _ _
    · rw [alGet_cons, if_neg hk] at h
      exact List.mem_cons_of_mem _ (ih h)

theorem mem_alKeys_iff_isSome {m : List (α × β)} {k : α} :
    k ∈ alKeys m ↔ (alGet m k).isSome := by
  induction m with
  | nil => simp [alKeys]
  | cons kv rest ih =>
    obtain ⟨k', v'⟩ := kv
    by_cases hk : k' = k
    · subst hk
      simp [alKeys]
    · simp only [alKeys, List.map_cons, List.mem_cons, alGet_cons, hk, if_false]
      rw [alKeys] at ih
      simp only [ih]
      constructor
      · rintro (h | h)
        · exact absurd h.symm hk
        · exact h
      · exact Or.inr

theorem mem_dedupFS {l : List α} {x : α} : x ∈ dedupFS l ↔ x ∈ l := by
  unfold dedupFS
  suffices h : ∀ acc : List α,
      x ∈ l.foldl (fun acc y => if y ∈ acc then acc else acc ++ [y]) acc ↔ x ∈ acc ∨ x ∈ l by
    simpa using h []
  induction l with
  | nil => simp
  | cons y ys ih =>
    intro acc
    by_cases hy : y ∈ acc
    · rw [List.foldl_cons, if_pos hy, ih]
      constructor
      · rintro (h | h)
        · exact Or.inl h
        · exact Or.inr (List.mem_cons_of_mem _ h)
      · rintro (h | h)
        · exact Or.inl h
        · rcases List.mem_cons.mp h with h | h
          · exact Or.inl (h ▸ hy)
          · exact Or.inr h
    · rw [List.foldl_cons, if_neg hy, ih]
      simp [List.mem_append, List.mem_cons, or_assoc]

end ALists

/-! ## Supporting lemmas for the similarity engine -/

theorem sum_range_sq_getD (l : List ℝ) :
    ((List.range l.length).map (fun i => l.getD i 0 * l.getD i 0)).sum = sumSq l := by
  unfold sumSq
  induction l with
  | nil => simp
  | cons x xs ih =>
    rw [List.length_cons, List.range_succ_eq_map, List.map_cons, List.map_map, List.sum_cons,
      List.map_cons, List.sum_cons]
    simp only [List.getD_cons_zero, Function.comp_def, List.getD_cons_succ]
    rw [ih]

/-! ## Claim C3 -/

theorem registerEvent_of_unknown (now : ℕ) (s : EngineState) (ev : EventIn)
    (h : alGet (byId s) (canon ev.product_id) = none) :
    registerEvent now s ev = (⟨false, some true⟩, s) := by
  unfold registerEvent
  simp only [h]
  rfl

/-- C3: an event whose canonicalized product id is not in the catalog is
rejected — the result is the record with `ok = false` (the spec's `accepted`)
and `ignored = true` — and the engine state is returned unchanged: no
interaction is appended and no user vector or entry is created. -/
theorem registerEvent_unknown_product (now : ℕ) (s : EngineState) (ev : EventIn)
    (h : alGet (byId s) (canon ev.product_id) = none) :
    registerEvent now s ev = (⟨false, some true⟩, s) :=
  registerEvent_of_unknown now s ev h

/-- Witness for C3: a one-product catalog rejects an event for the unknown
product id `"unknown"` from user `"u2"` without touching the state. -/
theorem registerEvent_unknown_product_witness :
    registerEvent 0 (mkState [⟨"p1", "Red Shoes", ["footwear"], 50⟩])
        ⟨"u2", "unknown", .view, none⟩ =
      (⟨false, some true⟩, mkState [⟨"p1", "Red Shoes", ["footwear"], 50⟩]) :=
  registerEvent_unknown_product 0 _ _ (by decide)

/-! ## Claim C5 -/

/-- C5: both similarity operations return `0` whenever either operand has
zero magnitude — for equal-length dense vectors when either sum of squares
is `0`, and for sparse maps when either accumulated squared magnitude is
`0`; both are total functions into `ℝ`, so no `NaN` or division error can
arise. -/
theorem cosine_zero_magnitude :
    (∀ a b : List ℝ, a.length = b.length → sumSq a = 0 ∨ sumSq b = 0 → cosine a b = 0) ∧
    (∀ sa sb : List (String × ℚ), sumSqSparse sa = 0 ∨ sumSqSparse sb = 0 →
      cosineSparse sa sb = 0) := by
  constructor
  · intro a b hlen h
    unfold cosine
    rw [if_pos]
    unfold loopSum
    rcases h with h | h
    · exact Or.inl (by rw [sum_range_sq_getD a, h])
    · exact Or.inr (by rw [hlen, sum_range_sq_getD b, h])
  · intro sa sb h
    unfold cosineSparse
    rw [if_pos h]

/-- Witness for C5: the zero dense vector `[0, 0]` against `[3, 4]`, and a
sparse map with a single zero weight against a nonzero one. -/
theorem cosine_zero_magnitude_witness :
    cosine [0, 0] [3, 4] = 0 ∧ cosineSparse [("x", 0)] [("y", 2)] = 0 :=
  ⟨cosine_zero_magnitude.1 [0, 0] [3, 4] rfl (Or.inl (by norm_num [sumSq])),
    cosine_zero_magnitude.2 [("x", 0)] [("y", 2)] (Or.inl (by norm_num [sumSqSparse]))⟩

/-! ## Claim C9 -/

theorem registerEvent_of_known (now : ℕ) (s : EngineState) (ev : EventIn)
    (hp : (alGet (byId s) (canon ev.product_id)).isSome) :
    registerEvent now s ev =
      (⟨true, none⟩,
        { s with
          interactions := s.interactions ++
            [⟨canon ev.user_id, canon ev.product_id, ev.type, ev.ts.getD now⟩],
          userVectors := alSet s.userVectors (canon ev.user_id)
            (alSet ((alGet s.userVectors (canon ev.user_id)).getD [])
              (canon ev.product_id)
              (alGetD ((alGet s.userVectors (canon ev.user_id)).getD [])
                (canon ev.product_id) 0 + WEIGHT ev.type)) }) := by
  unfold registerEvent
  rw [if_pos hp]

theorem interWeightSum_of_not_has {s : EngineState} {u p : String}
    (h : hasInteraction s u p = false) : interWeightSum s u p = 0 := by
  unfold hasInteraction at h
  unfold interWeightSum
  have : s.interactions.filter (fun ev => ev.user_id == u && ev.product_id == p) = [] := by
    rw [List.filter_eq_nil_iff]
    intro ev hev
    have := (List.any_eq_false.mp h) ev hev
    simpa using this
  rw [this]
  simp

/-- C9: after any sequence of `registerEvent` calls the user-vector store
satisfies `VectorInv` — each sparse entry equals the summed weights of that
user's recorded interactions with that product and exists exactly when one
was accepted: the invariant holds of the initial state and is preserved by
`registerEvent` (the only state-mutating operation; every other engine
operation is a pure function of the state). -/
theorem registerEvent_preserves_VectorInv :
    (∀ products, VectorInv (mkState products)) ∧
      (∀ now s ev, VectorInv s → VectorInv (registerEvent now s ev).2) := by
  constructor
  · intro products u p
    simp [userWeight, mkState, hasInteraction]
  · intro now s ev hInv u p
    by_cases hp : (alGet (byId s) (canon ev.product_id)).isSome
    · rw [registerEvent_of_known now s ev hp]
      set uid := canon ev.user_id with huid
      set pid := canon ev.product_id with hpid
      set vec0 := (alGet s.userVectors uid).getD [] with hvec0
      by_cases hu : u = uid
      · subst hu
        by_cases hpp : p = pid
        · subst hpp
          -- the touched entry: new weight = old entry (or 0) + WEIGHT
          have hw : userWeight
              { s with
                interactions := s.interactions ++ [⟨uid, pid, ev.type, ev.ts.getD now⟩],
                userVectors := alSet s.userVectors uid
                  (alSet vec0 pid (alGetD vec0 pid 0 + WEIGHT ev.type)) } uid pid =
              some (alGetD vec0 pid 0 + WEIGHT ev.type) := by
            unfold userWeight
            rw [alGet_alSet_self]
            simp only [Option.some_bind]
            exact alGet_alSet_self _ _ _
          rw [hw]
          have hhas : hasInteraction
              { s with
                interactions := s.interactions ++ [⟨uid, pid, ev.type, ev.ts.getD now⟩],
                userVectors := alSet s.userVectors uid
                  (alSet vec0 pid (alGetD vec0 pid 0 + WEIGHT ev.type)) } uid pid = true := by
            unfold hasInteraction
            simp [List.any_append]
          rw [if_pos hhas]
          have hsum : interWeightSum
              { s with
                interactions := s.interactions ++ [⟨uid, pid, ev.type, ev.ts.getD now⟩],
                userVectors := alSet s.userVectors uid
                  (alSet vec0 pid (alGetD vec0 pid 0 + WEIGHT ev.type)) } uid pid =
              interWeightSum s uid pid + WEIGHT ev.type := by
            unfold interWeightSum
            simp [List.filter_append]
          rw [hsum]
          -- old entry (or 0) equals the old interaction sum
          have hold := hInv uid pid
          unfold userWeight at hold
          congr 1
          cases hv : alGet s.userVectors uid with
          | none =>
            rw [hv] at hold
            simp only [Option.bind] at hold
            by_cases hhas0 : hasInteraction s uid pid
            · rw [if_pos hhas0] at hold
              exact absurd hold.symm (by simp)
            · have h0 : hasInteraction s uid pid = false := by
                simpa using hhas0
              rw [interWeightSum_of_not_has h0]
              rw [hvec0, hv]
              simp [alGetD]
          | some vb =>
            rw [hv] at hold
            simp only [Option.some_bind] at hold
            rw [hvec0, hv]
            simp only [Option.getD_some]
            cases hw0 : alGet vb pid with
            | none =>
              rw [hw0] at hold
              by_cases hhas0 : hasInteraction s uid pid
              · rw [if_pos hhas0] at hold
                exact absurd hold.symm (by simp)
              · have h0 : hasInteraction s uid pid = false := by simpa using hhas0
                rw [interWeightSum_of_not_has h0]
                simp [alGetD, hw0]
            | some w0 =>
              rw [hw0] at hold
              by_cases hhas0 : hasInteraction s uid pid
              · rw [if_pos hhas0] at hold
                have hval : w0 = interWeightSum s uid pid := Option.some.inj hold
                simp [alGetD, hw0, hval]
              · rw [if_neg hhas0] at hold
                exact absurd hold (by simp)
        · -- same user, untouched product entry
          have hfilter : ((⟨uid, pid, ev.type, ev.ts.getD now⟩ : Interaction).user_id == uid &&
              (⟨uid, pid, ev.type, ev.ts.getD now⟩ : Interaction).product_id == p) = false := by
            simp
            intro h
            exact absurd h.symm hpp
          have hw : userWeight
              { s with
                interactions := s.interactions ++ [⟨uid, pid, ev.type, ev.ts.getD now⟩],
                userVectors := alSet s.userVectors uid
                  (alSet vec0 pid (alGetD vec0 pid 0 + WEIGHT ev.type)) } uid p =
              alGet vec0 p := by
            unfold userWeight
            simp only [alGet_alSet_self]
            simp [alGet_alSet_ne _ _ _ _ hpp]
          rw [hw]
          have hhas : hasInteraction
              { s with
                interactions := s.interactions ++ [⟨uid, pid, ev.type, ev.ts.getD now⟩],
                userVectors := alSet s.userVectors uid
                  (alSet vec0 pid (alGetD vec0 pid 0 + WEIGHT ev.type)) } uid p =
              hasInteraction s uid p := by
            unfold hasInteraction
            rw [List.any_append]
            simp [hfilter]
            intro h
            exact absurd h.symm hpp
          have hsum : interWeightSum
              { s with
                interactions := s.interactions ++ [⟨uid, pid, ev.type, ev.ts.getD now⟩],
                userVectors := alSet s.userVectors uid
                  (alSet vec0 pid (alGetD vec0 pid 0 + WEIGHT ev.type)) } uid p =
              interWeightSum s uid p := by
            unfold interWeightSum
            rw [List.filter_append]
            have hnil : List.filter (fun iv => iv.user_id == uid && iv.product_id == p)
                [(⟨uid, pid, ev.type, ev.ts.getD now⟩ : Interaction)] = [] := by
              simp only [List.filter, hfilter]
            rw [hnil]
            simp
          rw [hhas, hsum]
          have hold := hInv uid p
          unfold userWeight at hold
          cases hv : alGet s.userVectors uid with
          | none =>
            rw [hv] at hold
            simp only [Option.bind] at hold
            rw [hvec0, hv]
            simpa using hold
          | some vb =>
            rw [hv] at hold
            simp only [Option.some_bind] at hold
            rw [hvec0, hv]
            simpa using hold
      · -- a different user: nothing changes for u
        have hfilter : ((⟨uid, pid, ev.type, ev.ts.getD now⟩ : Interaction).user_id == u &&
            (⟨uid, pid, ev.type, ev.ts.getD now⟩ : Interaction).product_id == p) = false := by
          simp
          intro h
          exact absurd h.symm hu
        have hw : userWeight
            { s with
              interactions := s.interactions ++ [⟨uid, pid, ev.type, ev.ts.getD now⟩],
              userVectors := alSet s.userVectors uid
                (alSet vec0 pid (alGetD vec0 pid 0 + WEIGHT ev.type)) } u p =
            userWeight s u p := by
          unfold userWeight
          rw [alGet_alSet_ne _ _ _ _ hu]
        have hhas : hasInteraction
            { s with
              interactions := s.interactions ++ [⟨uid, pid, ev.type, ev.ts.getD now⟩],
              userVectors := alSet s.userVectors uid
                (alSet vec0 pid (alGetD vec0 pid 0 + WEIGHT ev.type)) } u p =
            hasInteraction s u p := by
          unfold hasInteraction
          rw [List.any_append]
          simp [hfilter]
        have hsum : interWeightSum
            { s with
              interactions := s.interactions ++ [⟨uid, pid, ev.type, ev.ts.getD now⟩],
              userVectors := alSet s.userVectors uid
                (alSet vec0 pid (alGetD vec0 pid 0 + WEIGHT ev.type)) } u p =
            interWeightSum s u p := by
          unfold interWeightSum
          rw [List.filter_append]
          have hnil : List.filter (fun iv => iv.user_id == u && iv.product_id == p)
              [(⟨uid, pid, ev.type, ev.ts.getD now⟩ : Interaction)] = [] := by
            simp only [List.filter, hfilter]
          rw [hnil]
          simp
        rw [hw, hhas, hsum]
        exact hInv u p
    · have hnone : alGet (byId s) (canon ev.product_id) = none :=
        Option.not_isSome_iff_eq_none.mp hp
      rw [registerEvent_of_unknown now s ev hnone]
      exact hInv u p


/-- Witness for C9: the invariant holds of a freshly initialized engine and
of the state after one accepted view event. -/
theorem registerEvent_preserves_VectorInv_witness :
    VectorInv (mkState [⟨"p1", "Red Shoes", ["footwear"], 50⟩]) ∧
      VectorInv (registerEvent 7 (mkState [⟨"p1", "Red Shoes", ["footwear"], 50⟩])
        ⟨"u1", "p1", .view, none⟩).2 :=
  ⟨registerEvent_preserves_VectorInv.1 _,
    registerEvent_preserves_VectorInv.2 7 _ _ (registerEvent_preserves_VectorInv.1 _)⟩

/-! ## Claim C10 -/

theorem byId_ext (s s' : EngineState) (h : s.products = s'.products) :
    byId s = byId s' := by
  unfold byId
  rw [h]

theorem mem_alKeys_alSet {α β : Type _} [DecidableEq α] {m : List (α × β)} {k k' : α} {v : β}
    (h : k' ∈ alKeys (alSet m k v)) : k' ∈ alKeys m ∨ k' = k := by
  unfold alKeys at *
  rw [List.mem_map] at h
  obtain ⟨e, he, hk⟩ := h
  rcases mem_alSet he with hm | heq
  · exact Or.inl (List.mem_map.mpr ⟨e, hm, hk⟩)
  · right
    rw [← hk, heq]

theorem mem_keys_popular_counts (l : List Interaction) (acc : List (String × ℚ))
    (pid : String)
    (h : pid ∈ alKeys (l.foldl (fun m ev =>
      alSet m ev.product_id (alGetD m ev.product_id 0 + WEIGHT ev.type)) acc)) :
    pid ∈ alKeys acc ∨ ∃ ev ∈ l, ev.product_id = pid := by
  induction l generalizing acc with
  | nil => exact Or.inl h
  | cons ev rest ih =>
    rw [List.foldl_cons] at h
    rcases ih _ h with h' | h'
    · rcases mem_alKeys_alSet h' with h'' | h''
      · exact Or.inl h''
      · exact Or.inr ⟨ev, List.mem_cons_self _ _, h''.symm⟩
    · obtain ⟨ev', hev', hpid⟩ := h'
      exact Or.inr ⟨ev', List.mem_cons_of_mem _ hev', hpid⟩

theorem mem_alKeys_popularItems {s : EngineState} {n : ℕ} {pid : String}
    (h : pid ∈ alKeys (popularItems s n)) :
    ∃ ev ∈ s.interactions, ev.product_id = pid := by
  unfold popularItems at h
  rw [alKeys, List.mem_map] at h
  obtain ⟨e, he, hk⟩ := h
  have he1 := List.mem_of_mem_take he
  have he2 := (List.perm_insertionSort
    (fun x y : String × ℚ => y.2 ≤ x.2) _).mem_iff.mp he1
  have : pid ∈ alKeys (s.interactions.foldl (fun m ev =>
      alSet m ev.product_id (alGetD m ev.product_id 0 + WEIGHT ev.type)) []) := by
    rw [alKeys, List.mem_map]
    exact ⟨e, he2, hk⟩
  rcases mem_keys_popular_counts _ _ _ this with h' | h'
  · simp [alKeys] at h'
  · exact h'

theorem mem_keys_candidate_inner (v : List (String × ℚ)) (owned : List String)
    (sim : ℝ) (cs : List (String × ℝ)) (pid : String)
    (h : pid ∈ alKeys (v.foldl (fun cs pw =>
      if pw.1 ∈ owned then cs else alSet cs pw.1 (alGetD cs pw.1 0 + sim * (pw.2 : ℝ))) cs)) :
    pid ∈ alKeys cs ∨ ∃ pw ∈ v, pw.1 = pid := by
  induction v generalizing cs with
  | nil => exact Or.inl h
  | cons pw rest ih =>
    rw [List.foldl_cons] at h
    rcases ih _ h with h' | h'
    · by_cases ho : pw.1 ∈ owned
      · rw [if_pos ho] at h'
        exact Or.inl h'
      · rw [if_neg ho] at h'
        rcases mem_alKeys_alSet h' with h'' | h''
        · exact Or.inl h''
        · exact Or.inr ⟨pw, List.mem_cons_self _ _, h''.symm⟩
    · obtain ⟨pw', hpw', hpid⟩ := h'
      exact Or.inr ⟨pw', List.mem_cons_of_mem _ hpw', hpid⟩

theorem mem_keys_candidateScores {s : EngineState} {vec : List (String × ℚ)}
    {neigh : List (String × ℝ)} {pid : String}
    (h : pid ∈ alKeys (candidateScores s vec neigh)) :
    ∃ nb ∈ neigh, ∃ pw ∈ (alGet s.userVectors nb.1).getD [], pw.1 = pid := by
  unfold candidateScores at h
  suffices haux : ∀ (cs : List (String × ℝ)),
      pid ∈ alKeys (neigh.foldl (fun cs nb =>
        ((alGet s.userVectors nb.1).getD []).foldl (fun cs pw =>
          if pw.1 ∈ alKeys vec then cs
          else alSet cs pw.1 (alGetD cs pw.1 0 + nb.2 * (pw.2 : ℝ))) cs) cs) →
      pid ∈ alKeys cs ∨ ∃ nb ∈ neigh, ∃ pw ∈ (alGet s.userVectors nb.1).getD [], pw.1 = pid by
    rcases haux [] h with h' | h'
    · simp [alKeys] at h'
    · exact h'
  clear h
  induction neigh with
  | nil => intro cs h; exact Or.inl h
  | cons nb rest ih =>
    intro cs h
    rw [List.foldl_cons] at h
    rcases ih _ h with h' | h'
    · rcases mem_keys_candidate_inner _ _ _ _ _ h' with h'' | h''
      · exact Or.inl h''
      · obtain ⟨pw, hpw, hpid⟩ := h''
        exact Or.inr ⟨nb, List.mem_cons_self _ _, pw, hpw, hpid⟩
    · obtain ⟨nb', hnb', rest'⟩ := h'
      exact Or.inr ⟨nb', List.mem_cons_of_mem _ hnb', rest'⟩

/-- C10: every product id in the interaction list or in any user vector is a
key of `byId` — the invariant holds initially, is preserved by
`registerEvent` (which rejects unknown ids before mutating), and under it
every catalog lookup on the popularity path and on the collaborative
candidate map succeeds, so the source's non-null assertions never fire. -/
theorem catalog_closure_invariant :
    (∀ products, CatalogInv (mkState products)) ∧
      (∀ now s ev, CatalogInv s → CatalogInv (registerEvent now s ev).2) ∧
      (∀ s n pid, CatalogInv s → pid ∈ alKeys (popularItems s n) →
        (alGet (byId s) pid).isSome) ∧
      (∀ s uid pid, CatalogInv s → pid ∈ alKeys (cfScoresForUser s uid).1 →
        (alGet (byId s) pid).isSome) := by
  refine ⟨?_, ?_, ?_, ?_⟩
  · intro products
    constructor
    · intro ev hev
      simp [mkState] at hev
    · intro kv hkv
      simp [mkState] at hkv
  · intro now s ev hInv
    obtain ⟨hI, hV⟩ := hInv
    by_cases hp : (alGet (byId s) (canon ev.product_id)).isSome
    · rw [registerEvent_of_known now s ev hp]
      have hbyid : byId
          { s with
            interactions := s.interactions ++
              [⟨canon ev.user_id, canon ev.product_id, ev.type, ev.ts.getD now⟩],
            userVectors := alSet s.userVectors (canon ev.user_id)
              (alSet ((alGet s.userVectors (canon ev.user_id)).getD [])
                (canon ev.product_id)
                (alGetD ((alGet s.userVectors (canon ev.user_id)).getD [])
                  (canon ev.product_id) 0 + WEIGHT ev.type)) } = byId s :=
        byId_ext _ _ rfl
      constructor
      · intro ev' hev'
        rw [hbyid]
        rcases List.mem_append.mp hev' with h | h
        · exact hI ev' h
        · rw [List.mem_singleton] at h
          rw [h]
          exact hp
      · intro kv hkv pw hpw
        rw [hbyid]
        rcases mem_alSet hkv with hm | heq
        · exact hV kv hm pw hpw
        · rw [heq] at hpw
          rcases mem_alSet hpw with hm' | heq'
          · cases hvget : alGet s.userVectors (canon ev.user_id) with
            | none =>
              rw [hvget] at hm'
              simp at hm'
            | some vb =>
              rw [hvget] at hm'
              simp only [Option.getD_some] at hm'
              exact hV (canon ev.user_id, vb) (alGet_eq_some_mem hvget) pw hm'
          · rw [heq']
            exact hp
    · have hnone : alGet (byId s) (canon ev.product_id) = none :=
        Option.not_isSome_iff_eq_none.mp hp
      rw [registerEvent_of_unknown now s ev hnone]
      exact ⟨hI, hV⟩
  · intro s n pid hInv h
    obtain ⟨ev, hev, hpid⟩ := mem_alKeys_popularItems h
    rw [← hpid]
    exact hInv.1 ev hev
  · intro s uid pid hInv h
    unfold cfScoresForUser at h
    cases hv : alGet s.userVectors (canon uid) with
    | none =>
      simp only [hv] at h
      simp only [alKeys, List.map_map] at h
      rw [List.mem_map] at h
      obtain ⟨e, he, hk⟩ := h
      have : pid ∈ alKeys (popularItems s maxSafeInteger) := by
        rw [alKeys, List.mem_map]
        exact ⟨e, he, hk⟩
      obtain ⟨ev, hev, hpid⟩ := mem_alKeys_popularItems this
      rw [← hpid]
      exact hInv.1 ev hev
    | some vec =>
      simp only [hv] at h
      by_cases hlen : vec.length = 0
      · rw [if_pos hlen] at h
        simp only [alKeys, List.map_map] at h
        rw [List.mem_map] at h
        obtain ⟨e, he, hk⟩ := h
        have : pid ∈ alKeys (popularItems s maxSafeInteger) := by
          rw [alKeys, List.mem_map]
          exact ⟨e, he, hk⟩
        obtain ⟨ev, hev, hpid⟩ := mem_alKeys_popularItems this
        rw [← hpid]
        exact hInv.1 ev hev
      · rw [if_neg hlen] at h
        obtain ⟨nb, hnb, pw, hpw, hpid⟩ := mem_keys_candidateScores h
        cases hvn : alGet s.userVectors nb.1 with
        | none =>
          rw [hvn] at hpw
          simp at hpw
        | some vb =>
          rw [hvn] at hpw
          simp only [Option.getD_some] at hpw
          rw [← hpid]
          exact hInv.2 (nb.1, vb) (alGet_eq_some_mem hvn) pw hpw

/-- Witness for C10: the invariant of the one-product scenario state and a
successful catalog lookup for the popular product. -/
theorem catalog_closure_invariant_witness :
    CatalogInv (mkState [prodShoe]) ∧
      CatalogInv (registerEvent 0 (mkState [prodShoe]) ⟨"u1", "p1", .view, none⟩).2 ∧
      (alGet (byId s1) "p1").isSome :=
  ⟨catalog_closure_invariant.1 _,
    catalog_closure_invariant.2.1 0 _ _ (catalog_closure_invariant.1 _),
    catalog_closure_invariant.2.2.1 s1 5 "p1"
      (by unfold CatalogInv; decide) (by decide)⟩

/-! ## Claim C6 -/

theorem alKeys_map_replace {α β : Type _} [DecidableEq α] (m : List (α × β)) (k : α) (v : β) :
    alKeys (m.map (fun kv => if kv.1 = k then (kv.1, v) else kv)) = alKeys m := by
  unfold alKeys
  rw [List.map_map]
  apply List.map_congr_left
  intro kv _
  by_cases h : kv.1 = k <;> simp [h]

theorem alKeys_alSet_nodup {α β : Type _} [DecidableEq α] {m : List (α × β)} {k : α} {v : β}
    (h : (alKeys m).Nodup) : (alKeys (alSet m k v)).Nodup := by
  unfold alSet
  by_cases hs : (alGet m k).isSome
  · rw [if_pos hs, alKeys_map_replace]
    exact h
  · rw [if_neg hs]
    have hk : k ∉ alKeys m := by
      rw [mem_alKeys_iff_isSome]
      exact hs
    unfold alKeys at *
    rw [List.map_append]
    simp [List.nodup_append, h, hk]

theorem alGet_of_mem_nodup {α β : Type _} [DecidableEq α] {m : List (α × β)} {e : α × β}
    (hn : (alKeys m).Nodup) (he : e ∈ m) : alGet m e.1 = some e.2 := by
  induction m with
  | nil => simp at he
  | cons kv rest ih =>
    unfold alKeys at hn
    rw [List.map_cons, List.nodup_cons] at hn
    rcases List.mem_cons.mp he with h | h
    · rw [h, alGet_cons, if_pos rfl]
    · have hne : kv.1 ≠ e.1 := by
        intro hcontra
        exact hn.1 (hcontra ▸ List.mem_map.mpr ⟨e, h, rfl⟩)
      rw [alGet_cons, if_neg hne]
      exact ih hn.2 h

theorem popCounts_keys_nodup (l : List Interaction) (acc : List (String × ℚ))
    (h : (alKeys acc).Nodup) :
    (alKeys (l.foldl (fun m ev =>
      alSet m ev.product_id (alGetD m ev.product_id 0 + WEIGHT ev.type)) acc)).Nodup := by
  induction l generalizing acc with
  | nil => exact h
  | cons ev rest ih =>
    rw [List.foldl_cons]
    exact ih _ (alKeys_alSet_nodup h)

theorem popCounts_getD (l : List Interaction) (acc : List (String × ℚ)) (k : String) :
    alGetD (l.foldl (fun m ev =>
        alSet m ev.product_id (alGetD m ev.product_id 0 + WEIGHT ev.type)) acc) k 0 =
      alGetD acc k 0 +
        ((l.filter (fun ev => ev.product_id == k)).map (fun ev => WEIGHT ev.type)).sum := by
  induction l generalizing acc with
  | nil => simp
  | cons ev rest ih =>
    rw [List.foldl_cons, ih]
    by_cases hk : ev.product_id = k
    · have : alGetD (alSet acc ev.product_id (alGetD acc ev.product_id 0 + WEIGHT ev.type)) k 0 =
          alGetD acc k 0 + WEIGHT ev.type := by
        unfold alGetD
        rw [← hk, alGet_alSet_self]
        rfl
      rw [this, List.filter_cons_of_pos (by simp [hk]), List.map_cons, List.sum_cons]
      ring
    · have : alGetD (alSet acc ev.product_id (alGetD acc ev.product_id 0 + WEIGHT ev.type)) k 0 =
          alGetD acc k 0 := by
        unfold alGetD
        rw [alGet_alSet_ne _ _ _ _ (fun h => hk h.symm)]
      rw [this, List.filter_cons_of_neg (by simp [hk])]

theorem alGetD_eq_of_alGet {α β : Type _} [DecidableEq α] {m : List (α × β)} {k : α}
    {v d : β} (h : alGet m k = some v) : alGetD m k d = v := by
  unfold alGetD
  rw [h]
  rfl

theorem popularItems_entry_spec {s : EngineState} {n : ℕ} {pr : String × ℚ}
    (h : pr ∈ popularItems s n) : pr.2 = popWeightSum s pr.1 := by
  unfold popularItems at h
  have hmem := (List.perm_insertionSort (fun x y : String × ℚ => y.2 ≤ x.2) _).mem_iff.mp
    (List.mem_of_mem_take h)
  have hnodup := popCounts_keys_nodup s.interactions [] (by simp [alKeys])
  have hget := alGet_of_mem_nodup hnodup hmem
  have h2 := @alGetD_eq_of_alGet _ _ _ _ _ _ 0 hget
  have hspec := popCounts_getD s.interactions [] pr.1
  rw [h2] at hspec
  rw [hspec]
  unfold popWeightSum
  simp [alGetD]

theorem popularItems_sorted (s : EngineState) (n : ℕ) :
    List.Sorted (fun x y : String × ℚ => y.2 ≤ x.2) (popularItems s n) := by
  unfold popularItems
  haveI : IsTotal (String × ℚ) (fun x y => y.2 ≤ x.2) := ⟨fun a b => le_total b.2 a.2⟩
  haveI : IsTrans (String × ℚ) (fun x y => y.2 ≤ x.2) := ⟨fun _ _ _ h1 h2 => le_trans h2 h1⟩
  exact List.Pairwise.sublist (List.take_sublist _ _) (List.sorted_insertionSort _ _)

/-- C6: a user whose vector is absent or empty gets the global popularity
ranking from both entry points — `recommendForUser` returns the
popularity rows and `cfScoresForUser` returns the raw popularity map with
`hadVector = false` (the flag downstream code turns into the `"popular"`
reason tag) — where the popularity list scores every product by the sum of
`WEIGHT[type]` over all interactions ever recorded for it, in descending
order. -/
theorem recommendForUser_popularity_fallback :
    ∀ (s : EngineState) (uid : String) (limit : ℕ),
      alGet s.userVectors (canon uid) = none ∨
        alGet s.userVectors (canon uid) = some [] →
      recommendForUser s uid limit =
          (popularRows s limit).map (fun r => { r with score := round4 r.score }) ∧
        cfScoresForUser s uid =
          ((popularItems s maxSafeInteger).map (fun it => (it.1, (it.2 : ℝ))), false) ∧
        (∀ (n : ℕ) (pr : String × ℚ), pr ∈ popularItems s n →
          pr.2 = popWeightSum s pr.1) ∧
        (∀ n : ℕ, List.Sorted (fun x y : String × ℚ => y.2 ≤ x.2) (popularItems s n)) := by
  intro s uid limit h
  refine ⟨?_, ?_, fun n pr => popularItems_entry_spec, fun n => popularItems_sorted s n⟩
  · unfold recommendForUser
    rcases h with h | h <;> simp only [h]
    rfl
  · unfold cfScoresForUser
    rcases h with h | h <;> simp only [h]
    rfl

/-- Witness for C6: user `"u9"` has no vector in the one-user scenario
state, so both entry points fall back to popularity. -/
theorem recommendForUser_popularity_fallback_witness :
    recommendForUser s1 "u9" 5 =
        (popularRows s1 5).map (fun r => { r with score := round4 r.score }) ∧
      cfScoresForUser s1 "u9" =
        ((popularItems s1 maxSafeInteger).map (fun it => (it.1, (it.2 : ℝ))), false) ∧
      (∀ (n : ℕ) (pr : String × ℚ), pr ∈ popularItems s1 n →
        pr.2 = popWeightSum s1 pr.1) ∧
      (∀ n : ℕ, List.Sorted (fun x y : String × ℚ => y.2 ≤ x.2) (popularItems s1 n)) :=
  recommendForUser_popularity_fallback s1 "u9" 5 (Or.inl (by decide))

/-! ## Structural lemmas about the blend combination loop -/

theorem byId_entry_form (s : EngineState) :
    ∀ e ∈ byId s, e.1 = e.2.product_id := by
  unfold byId
  suffices haux : ∀ (l : List Product) (acc : List (String × Product)),
      (∀ e ∈ acc, e.1 = e.2.product_id) →
      ∀ e ∈ l.foldl (fun m p => alSet m p.product_id p) acc, e.1 = e.2.product_id by
    exact haux s.products [] (by simp)
  intro l
  induction l with
  | nil => intro acc h e he; exact h e he
  | cons p rest ih =>
    intro acc h e he
    rw [List.foldl_cons] at he
    refine ih _ ?_ e he
    intro e' he'
    rcases mem_alSet he' with hm | heq
    · exact h e' hm
    · rw [heq]

theorem byId_product_id {s : EngineState} {pid : String} {p : Product}
    (h : alGet (byId s) pid = some p) : p.product_id = pid :=
  (byId_entry_form s (pid, p) (alGet_eq_some_mem h)).symm

theorem blendStep_fst {s : EngineState} {opts : BlendOpts}
    {nC nCF : List (String × ℝ)} {hsn : List String}
    {rs : List (String × List String)} {pid : String} {y : String × ℝ × List String}
    (h : blendStep s opts nC nCF hsn rs pid = some y) : y.1 = pid := by
  unfold blendStep at h
  split_ifs at h
  cases hby : alGet (byId s) pid with
  | none =>
    rw [hby] at h
    simp at h
  | some p =>
    simp only [hby] at h
    split_ifs at h
    all_goals simp only [Option.some.injEq] at h
    all_goals rw [← h]

theorem blendStep_not_seen {s : EngineState} {opts : BlendOpts}
    {nC nCF : List (String × ℝ)} {hsn : List String}
    {rs : List (String × List String)} {pid : String} {y : String × ℝ × List String}
    (hex : blendExcludeSeen opts = true)
    (h : blendStep s opts nC nCF hsn rs pid = some y) : pid ∉ hsn := by
  intro hmem
  unfold blendStep at h
  rw [if_neg, if_pos ⟨hex, hmem⟩] at h
  · exact Option.noConfusion h
  · intro hcon
    rw [if_pos hcon] at h
    exact Option.noConfusion h

theorem blendStep_not_seed {s : EngineState} {opts : BlendOpts}
    {nC nCF : List (String × ℝ)} {hsn : List String}
    {rs : List (String × List String)} {pid sp : String} {y : String × ℝ × List String}
    (hex : blendExcludeSeed opts = true) (hsp : blendSeedPid opts = some sp)
    (hne : sp ≠ "") (h : blendStep s opts nC nCF hsn rs pid = some y) : pid ≠ sp := by
  intro hcon
  subst hcon
  unfold blendStep at h
  rw [if_pos ⟨hex, hsp, hne⟩] at h
  exact Option.noConfusion h

theorem eq_of_ite_none_some {γ : Type _} {c : Prop} [Decidable c] {z y : γ}
    (h : (if c then none else some z) = some y) : z = y := by
  split_ifs at h
  exact Option.some.inj h

theorem blendStep_reasons {s : EngineState} {opts : BlendOpts}
    {nC nCF : List (String × ℝ)} {hsn : List String}
    {rs : List (String × List String)} {pid : String} {y : String × ℝ × List String}
    (h : blendStep s opts nC nCF hsn rs pid = some y) :
    ∃ p, alGet (byId s) pid = some p ∧
      ("bias_category" ∈ y.2.2 ↔
        ("bias_category" ∈ alGetD rs pid [] ∨
          (0 < blendBeta opts ∧ blendBiasCats opts ≠ [] ∧
            p.categories.any (fun c => decide (jsToLower c ∈ blendBiasCats opts)) = true))) := by
  unfold blendStep at h
  split_ifs at h
  cases hby : alGet (byId s) pid with
  | none =>
    simp only [hby] at h
    simp at h
  | some p =>
    simp only [hby] at h
    refine ⟨p, rfl, ?_⟩
    by_cases hbias : (decide (0 < blendBeta opts) && decide (blendBiasCats opts ≠ []) &&
        p.categories.any (fun c => decide (jsToLower c ∈ blendBiasCats opts))) = true
    · have hconds : 0 < blendBeta opts ∧ blendBiasCats opts ≠ [] ∧
          p.categories.any (fun c => decide (jsToLower c ∈ blendBiasCats opts)) = true := by
        rw [Bool.and_eq_true, Bool.and_eq_true] at hbias
        exact ⟨of_decide_eq_true hbias.1.1, of_decide_eq_true hbias.1.2, hbias.2⟩
      simp only [hbias, if_true] at h
      have hz := eq_of_ite_none_some h
      rw [← hz]
      by_cases hmem : "bias_category" ∈ alGetD rs pid []
      · rw [if_pos hmem]
        exact ⟨fun _ => Or.inl hmem, fun _ => hmem⟩
      · rw [if_neg hmem]
        refine ⟨fun _ => Or.inr hconds, fun _ => ?_⟩
        exact List.mem_append.mpr (Or.inr (List.mem_singleton.mpr rfl))
    · have hbias' : (decide (0 < blendBeta opts) && decide (blendBiasCats opts ≠ []) &&
          p.categories.any (fun c => decide (jsToLower c ∈ blendBiasCats opts))) = false :=
        Bool.eq_false_iff.mpr hbias
      simp only [hbias', Bool.false_eq_true, if_false] at h
      have hz := eq_of_ite_none_some h
      rw [← hz]
      constructor
      · intro hmem
        exact Or.inl hmem
      · rintro (hmem | hcond)
        · exact hmem
        · refine absurd ?_ hbias
          rw [Bool.and_eq_true, Bool.and_eq_true]
          exact ⟨⟨decide_eq_true hcond.1, decide_eq_true hcond.2.1⟩, hcond.2.2⟩

theorem mem_recommendBlendCore {s : EngineState} {opts : BlendOpts} {row : BlendRow}
    (h : row ∈ recommendBlendCore s opts) :
    ∃ y : String × ℝ × List String,
      blendStep s opts (normalize01 (blendContent s opts).1)
          (normalize01 (blendCF s opts (blendContent s opts).2).1)
          (blendHaveSeen s opts) (blendCF s opts (blendContent s opts).2).2 y.1 = some y ∧
        alGet (byId s) y.1 = some row.product ∧ row.reasons = y.2.2 ∧
        row.score = round4 y.2.1 := by
  unfold recommendBlendCore at h
  rw [List.mem_filterMap] at h
  obtain ⟨x, hx, hrow⟩ := h
  have hx1 := List.mem_of_mem_take hx
  have hx2 : x ∈ (dedupFS (alKeys (normalize01 (blendContent s opts).1) ++
      alKeys (normalize01 (blendCF s opts (blendContent s opts).2).1))).filterMap
        (blendStep s opts (normalize01 (blendContent s opts).1)
          (normalize01 (blendCF s opts (blendContent s opts).2).1)
          (blendHaveSeen s opts) (blendCF s opts (blendContent s opts).2).2) := by
    unfold sortByScoreDesc at hx1
    exact (List.perm_insertionSort _ _).mem_iff.mp hx1
  rw [List.mem_filterMap] at hx2
  obtain ⟨pid, _, hstep⟩ := hx2
  have hfst := blendStep_fst hstep
  subst hfst
  cases hby : alGet (byId s) x.1 with
  | none =>
    rw [hby] at hrow
    exact Option.noConfusion hrow
  | some p =>
    rw [hby] at hrow
    simp only [Option.map_some', Option.some.injEq] at hrow
    refine ⟨x, hstep, ?_, ?_, ?_⟩
    · rw [hby, ← hrow]
    · rw [← hrow]
    · rw [← hrow]

/-! ## The accumulated reason sets never contain the bias tag -/

theorem mem_addReason {rs : List (String × List String)} {k t pid r : String}
    (h : r ∈ alGetD (addReason rs k t) pid []) :
    r ∈ alGetD rs pid [] ∨ r = t := by
  unfold addReason at h
  by_cases hk : pid = k
  · subst hk
    rw [alGetD_eq_of_alGet (alGet_alSet_self _ _ _)] at h
    by_cases hmem : t ∈ alGetD rs pid []
    · rw [if_pos hmem] at h
      exact Or.inl h
    · rw [if_neg hmem] at h
      rcases List.mem_append.mp h with h' | h'
      · exact Or.inl h'
      · exact Or.inr (List.mem_singleton.mp h')
  · unfold alGetD at h ⊢
    rw [alGet_alSet_ne _ _ _ _ hk] at h
    exact Or.inl h

theorem mem_mergeContent_reasons {m : List (String × ℝ)} {tag pid r : String}
    {acc : List (String × ℝ) × List (String × List String)}
    (h : r ∈ alGetD (mergeContent acc m tag).2 pid []) :
    r ∈ alGetD acc.2 pid [] ∨ r = tag := by
  unfold mergeContent at h
  induction m generalizing acc with
  | nil => exact Or.inl h
  | cons kv rest ih =>
    rw [List.foldl_cons] at h
    rcases ih h with h' | h'
    · simp only at h'
      exact mem_addReason h'
    · exact Or.inr h'

theorem mem_blendContent_reasons {s : EngineState} {opts : BlendOpts} {pid r : String}
    (h : r ∈ alGetD (blendContent s opts).2 pid []) :
    (∃ sp, blendSeedPid opts = some sp ∧ r = "similar_to:" ++ sp) ∨ r = "match_query" := by
  unfold blendContent at h
  cases hsp : blendSeedPid opts with
  | none =>
    simp only [hsp] at h
    by_cases hq : strTruthy opts.query = true
    · rw [if_pos hq] at h
      rcases mem_mergeContent_reasons h with h' | h'
      · simp [alGetD, alGet] at h'
      · exact Or.inr h'
    · rw [if_neg (by simpa using hq)] at h
      simp [alGetD, alGet] at h
  | some sp =>
    simp only [hsp] at h
    by_cases hsp' : sp ≠ ""
    · rw [if_pos hsp'] at h
      by_cases hq : strTruthy opts.query = true
      · rw [if_pos hq] at h
        rcases mem_mergeContent_reasons h with h' | h'
        · simp only at h'
          rcases mem_mergeContent_reasons h' with h'' | h''
          · simp [alGetD, alGet] at h''
          · exact Or.inl ⟨sp, rfl, h''⟩
        · exact Or.inr h'
      · rw [if_neg (by simpa using hq)] at h
        simp only at h
        rcases mem_mergeContent_reasons h with h' | h'
        · simp [alGetD, alGet] at h'
        · exact Or.inl ⟨sp, rfl, h'⟩
    · rw [if_neg hsp'] at h
      by_cases hq : strTruthy opts.query = true
      · rw [if_pos hq] at h
        rcases mem_mergeContent_reasons h with h' | h'
        · simp [alGetD, alGet] at h'
        · exact Or.inr h'
      · rw [if_neg (by simpa using hq)] at h
        simp [alGetD, alGet] at h

theorem mem_blendCF_reasons {s : EngineState} {opts : BlendOpts} {pid r : String}
    {rs : List (String × List String)}
    (h : r ∈ alGetD (blendCF s opts rs).2 pid []) :
    r ∈ alGetD rs pid [] ∨ r = "neighbors" ∨ r = "popular" := by
  unfold blendCF at h
  by_cases hu : strTruthy opts.userId = true
  · rw [if_pos hu] at h
    simp only at h
    generalize alKeys (cfScoresForUser s (opts.userId.getD "")).1 = ks at h
    generalize hb : (cfScoresForUser s (opts.userId.getD "")).2 = b at h
    clear hb
    induction ks generalizing rs with
    | nil => exact Or.inl h
    | cons k rest ih =>
      rw [List.foldl_cons] at h
      rcases ih h with h' | h'
      · rcases mem_addReason h' with h'' | h''
        · exact Or.inl h''
        · cases b
          · exact Or.inr (Or.inr h'')
          · exact Or.inr (Or.inl h'')
      · exact Or.inr h'
  · rw [if_neg hu] at h
    exact Or.inl h

theorem similar_to_ne_bias (sp : String) : "similar_to:" ++ sp ≠ "bias_category" := by
  intro h
  have hd := congrArg String.data h
  rw [String.data_append] at hd
  have : ("similar_to:".data).head? = ("bias_category".data).head? := by
    rw [← hd]
    rfl
  simp at this

theorem no_bias_tag_in_base {s : EngineState} {opts : BlendOpts} {pid : String} :
    "bias_category" ∉ alGetD (blendCF s opts (blendContent s opts).2).2 pid [] := by
  intro h
  rcases mem_blendCF_reasons h with h' | h' | h'
  · rcases mem_blendContent_reasons h' with ⟨sp, _, hsp⟩ | hq
    · exact similar_to_ne_bias sp hsp.symm
    · exact absurd hq.symm (by decide)
  · exact absurd h'.symm (by decide)
  · exact absurd h'.symm (by decide)

/-! ## Claims C1, C2, C7: the amended main-path guarantees -/

/-- C1 (amended): on the main (non-fallback) path of `recommendBlend`, with
a truthy user id supplied and `excludeSeen` in effect, no returned row's
product id is a key of that user's interaction vector. The claim's original
form is refuted by `blend_fallback_returns_seen_item`: the empty-result
popularity fallback bypasses this filter. -/
theorem blendCore_excludes_seen (s : EngineState) (opts : BlendOpts) (u : String)
    (uvec : List (String × ℚ)) (row : BlendRow)
    (hu : opts.userId = some u) (hne : u ≠ "")
    (hex : blendExcludeSeen opts = true)
    (hv : alGet s.userVectors (canon u) = some uvec)
    (hrow : row ∈ recommendBlendCore s opts) :
    row.product.product_id ∉ alKeys uvec := by
  intro hmem
  obtain ⟨y, hstep, hby, _, _⟩ := mem_recommendBlendCore hrow
  have hns := blendStep_not_seen hex hstep
  have hpid := byId_product_id hby
  apply hns
  have hhs : blendHaveSeen s opts = alKeys uvec := by
    unfold blendHaveSeen
    simp only [hu]
    rw [if_pos ⟨hne, hex⟩, hv]
    rfl
  rw [hhs, ← hpid]
  exact hmem

/-- C2 (amended): on the main (non-fallback) path of `recommendBlend`, with
a truthy seed product id supplied and `excludeSeed` in effect, the seed's
canonical id is never a returned row's product id. The claim's original
form is refuted by `blend_fallback_returns_seed`: the empty-result
popularity fallback bypasses this filter. -/
theorem blendCore_excludes_seed (s : EngineState) (opts : BlendOpts) (sp : String)
    (row : BlendRow)
    (hsp : blendSeedPid opts = some sp) (hne : sp ≠ "")
    (hex : blendExcludeSeed opts = true)
    (hrow : row ∈ recommendBlendCore s opts) :
    row.product.product_id ≠ sp := by
  obtain ⟨y, hstep, hby, _, _⟩ := mem_recommendBlendCore hrow
  have hpid := byId_product_id hby
  rw [hpid]
  exact blendStep_not_seed hex hsp hne hstep

/-- C7 (amended): on the main (non-fallback) path of `recommendBlend`, a
row carries the `"bias_category"` tag exactly when `beta > 0`, the bias
category set is nonempty, and the row's product has a category matching a
bias category case-insensitively. The claim's original biconditional is
refuted by `blend_fallback_drops_bias_tag`: a fallback row satisfying all
three conditions is tagged only `"popular"`. -/
theorem blendCore_bias_tag_iff (s : EngineState) (opts : BlendOpts) (row : BlendRow)
    (hrow : row ∈ recommendBlendCore s opts) :
    ("bias_category" ∈ row.reasons ↔
      (0 < blendBeta opts ∧ blendBiasCats opts ≠ [] ∧
        row.product.categories.any
          (fun c => decide (jsToLower c ∈ blendBiasCats opts)) = true)) := by
  obtain ⟨y, hstep, hby, hre, _⟩ := mem_recommendBlendCore hrow
  obtain ⟨p, hby', hiff⟩ := blendStep_reasons hstep
  rw [hby] at hby'
  have hp : p = row.product := (Option.some.inj hby').symm
  subst hp
  rw [hre, hiff]
  constructor
  · rintro (hbase | hcond)
    · exact absurd hbase no_bias_tag_in_base
    · exact hcond
  · intro hcond
    exact Or.inr hcond

/-! ## Counterexamples: the popularity fallback bypasses the filters -/

theorem normalize01_nil : normalize01 ([] : List (String × ℝ)) = [] := by
  unfold normalize01 norMax
  rw [List.foldl_nil, if_pos le_rfl]

theorem blendContent_optsC1 : blendContent s1 optsC1 = ([], []) := rfl

theorem blendCF_optsC1 : blendCF s1 optsC1 [] = ([], []) := rfl

theorem core_optsC1 : recommendBlendCore s1 optsC1 = [] := by
  simp only [recommendBlendCore, blendContent_optsC1, blendCF_optsC1, normalize01_nil]
  rfl

/-- Counterexample to C1 as stated: with a (truthy) user id and
`excludeSeen` at its default `true`, `recommendBlend` returns `"p1"` —
a product id present in that user's interaction vector — because the
empty-result popularity fallback skips the seen-filter. -/
theorem blend_fallback_returns_seen_item :
    (recommendBlend s1 optsC1).map (fun r => r.product.product_id) = ["p1"] ∧
      strTruthy optsC1.userId = true ∧
      blendExcludeSeen optsC1 = true ∧
      "p1" ∈ alKeys ((alGet s1.userVectors (canon "u1")).getD []) := by
  refine ⟨?_, rfl, rfl, by decide⟩
  simp only [recommendBlend, core_optsC1]
  rfl

theorem blendContent_optsC2 : blendContent s1 optsC2 = ([], []) := rfl

theorem blendCF_optsC2 : blendCF s1 optsC2 [] = ([], []) := rfl

theorem core_optsC2 : recommendBlendCore s1 optsC2 = [] := by
  simp only [recommendBlendCore, blendContent_optsC2, blendCF_optsC2, normalize01_nil]
  rfl

/-- Counterexample to C2 as stated: with seed `"p1"` (whose canonical id is
`"p1"`) and `excludeSeed` at its default `true`, `recommendBlend` returns
the seed itself, because the empty-result popularity fallback skips the
seed-filter. -/
theorem blend_fallback_returns_seed :
    (recommendBlend s1 optsC2).map (fun r => r.product.product_id) = ["p1"] ∧
      blendSeedPid optsC2 = some "p1" ∧
      blendExcludeSeed optsC2 = true := by
  refine ⟨?_, rfl, rfl⟩
  simp only [recommendBlend, core_optsC2]
  rfl

theorem blendContent_optsC7 : blendContent s1 optsC7 = ([], []) := rfl

theorem blendCF_optsC7 : blendCF s1 optsC7 [] = ([], []) := rfl

theorem core_optsC7 : recommendBlendCore s1 optsC7 = [] := by
  simp only [recommendBlendCore, blendContent_optsC7, blendCF_optsC7, normalize01_nil]
  rfl

/-- Counterexample to C7 as stated: on the fallback row for `"p1"` all
three bias conditions hold — `beta > 0`, a nonempty bias category set and a
matching product category — yet the row's reason list is `["popular"]`,
without the `"bias_category"` tag. -/
theorem blend_fallback_drops_bias_tag :
    (recommendBlend s1 optsC7).map (fun r => (r.product.product_id, r.reasons)) =
        [("p1", ["popular"])] ∧
      0 < blendBeta optsC7 ∧
      blendBiasCats optsC7 ≠ [] ∧
      prodShoe.categories.any (fun c => decide (jsToLower c ∈ blendBiasCats optsC7)) = true ∧
      "bias_category" ∉ ["popular"] := by
  refine ⟨?_, ?_, by decide, by decide, by decide⟩
  · simp only [recommendBlend, core_optsC7]
    rfl
  · unfold blendBeta optsC7
    norm_num

/-! ## Evaluating the main path on the two-user scenario -/

theorem cosineSparse_s2 :
    cosineSparse [("p1", (1 : ℚ))] [("p1", (1 : ℚ)), ("p2", (1 : ℚ))] =
      1 / Real.sqrt 2 := by
  unfold cosineSparse
  rw [show sumSqSparse [("p1", (1 : ℚ))] = 1 from by norm_num [sumSqSparse],
    show sumSqSparse [("p1", (1 : ℚ)), ("p2", (1 : ℚ))] = 2 from by norm_num [sumSqSparse]]
  rw [if_neg (by norm_num)]
  norm_num [alGetD, alGet]

theorem cosineSparse_s2_pos :
    0 < cosineSparse [("p1", (1 : ℚ))] [("p1", (1 : ℚ)), ("p2", (1 : ℚ))] := by
  rw [cosineSparse_s2]
  have h2 : (0 : ℝ) < Real.sqrt 2 := Real.sqrt_pos.mpr (by norm_num)
  positivity

theorem topKNeighbors_s2 :
    topKNeighbors s2 "u1" 30 =
      [("u2", cosineSparse [("p1", (1 : ℚ))] [("p1", (1 : ℚ)), ("p2", (1 : ℚ))])] := by
  unfold topKNeighbors
  simp only [show alGet s2.userVectors (canon "u1") = some [("p1", (1 : ℚ))] from rfl]
  rw [show s2.userVectors.filter (fun kv => kv.1 ≠ canon "u1") =
    [("u2", [("p1", (1 : ℚ)), ("p2", (1 : ℚ))])] from rfl]
  rw [List.filterMap_cons]
  simp only [if_pos cosineSparse_s2_pos, List.filterMap_nil]
  rfl

theorem norMax_single {k : String} {v : ℝ} (hv : 0 < v) : norMax [(k, v)] = v := by
  unfold norMax
  rw [List.foldl_cons, List.foldl_nil, if_pos hv]

theorem normalize01_single_pos {k : String} {v : ℝ} (hv : 0 < v) :
    normalize01 [(k, v)] = [(k, 1)] := by
  unfold normalize01
  rw [norMax_single hv, if_neg (not_le.mpr hv), List.map_cons, List.map_nil,
    div_self (ne_of_gt hv)]

theorem blendContent_optsW : blendContent s2 optsW = ([], []) := rfl

theorem blendCF_optsW :
    blendCF s2 optsW [] =
      ([("p2", 0 + cosineSparse [("p1", (1 : ℚ))] [("p1", (1 : ℚ)), ("p2", (1 : ℚ))] *
          ((1 : ℚ) : ℝ))], [("p2", ["neighbors"])]) := by
  unfold blendCF
  rw [if_pos (show strTruthy optsW.userId = true from rfl)]
  unfold cfScoresForUser
  simp only [show alGet s2.userVectors (canon (optsW.userId.getD "")) =
    some [("p1", (1 : ℚ))] from rfl]
  rw [if_neg (by decide)]
  rw [show canon (optsW.userId.getD "") = "u1" from rfl, topKNeighbors_s2]
  rfl

theorem blendStep_optsW :
    blendStep s2 optsW [] [("p2", (1 : ℝ))] ["p1"] [("p2", ["neighbors"])] "p2" =
      some ("p2", 1, ["neighbors", "bias_category"]) := by
  have hbeta : blendBeta optsW = 1 := by
    unfold blendBeta optsW
    norm_num
  have halpha : blendAlpha optsW = 1 / 2 := by
    unfold blendAlpha optsW
    norm_num
  have hbh : (decide (0 < blendBeta optsW) && decide (blendBiasCats optsW ≠ []) &&
      (match alGet (byId s2) "p2" with
       | some p => p.categories.any (fun c => decide (jsToLower c ∈ blendBiasCats optsW))
       | none => false)) = true := by
    rw [decide_eq_true (show (0 : ℝ) < blendBeta optsW from by rw [hbeta]; norm_num)]
    rw [show alGet (byId s2) "p2" = some prodBoot from rfl]
    decide
  unfold blendStep
  rw [if_neg (by decide), if_neg (by decide)]
  simp only [hbh, if_true]
  have hsc : (1 : ℝ) ⊓ (blendAlpha optsW * alGetD ([] : List (String × ℝ)) "p2" 0 +
      (1 - blendAlpha optsW) * alGetD [("p2", (1 : ℝ))] "p2" 0 + blendBeta optsW) = 1 := by
    rw [halpha, hbeta, show alGetD ([] : List (String × ℝ)) "p2" 0 = 0 from rfl,
      show alGetD [("p2", (1 : ℝ))] "p2" 0 = 1 from rfl]
    norm_num
  rw [hsc, if_neg (by norm_num)]
  rfl

theorem round4_one : round4 1 = 1 := by
  unfold round4
  rw [show (1 : ℝ) * 10000 + 1 / 2 = 10000 + 1 / 2 from by norm_num]
  rw [show (⌊(10000 + 1 / 2 : ℝ)⌋ : ℤ) = 10000 from by
    rw [Int.floor_eq_iff]
    norm_num]
  norm_num

theorem core_optsW :
    recommendBlendCore s2 optsW = [⟨prodBoot, 1, ["neighbors", "bias_category"]⟩] := by
  have hv : (0 : ℝ) <
      0 + cosineSparse [("p1", (1 : ℚ))] [("p1", (1 : ℚ)), ("p2", (1 : ℚ))] * ((1 : ℚ) : ℝ) := by
    have := cosineSparse_s2_pos
    push_cast
    linarith
  simp only [recommendBlendCore, blendContent_optsW, blendCF_optsW, normalize01_nil,
    normalize01_single_pos hv]
  rw [show blendHaveSeen s2 optsW = ["p1"] from rfl]
  rw [show dedupFS (alKeys ([] : List (String × ℝ)) ++ alKeys [("p2", (1 : ℝ))]) =
    ["p2"] from rfl]
  rw [List.filterMap_cons]
  simp only [blendStep_optsW, List.filterMap_nil]
  rw [show sortByScoreDesc (fun x : String × ℝ × List String => x.2.1)
    [("p2", 1, ["neighbors", "bias_category"])] =
      [("p2", 1, ["neighbors", "bias_category"])] from rfl]
  rw [show blendLimit optsW = 5 from rfl]
  rw [show List.take 5 [("p2", (1 : ℝ), ["neighbors", "bias_category"])] =
    [("p2", (1 : ℝ), ["neighbors", "bias_category"])] from rfl]
  rw [List.filterMap_cons]
  simp only [show alGet (byId s2) "p2" = some prodBoot from rfl, Option.map_some',
    List.filterMap_nil, round4_one]

/-- Witness for C1 (amended): in the two-user scenario the main path
returns the neighbor candidate `"p2"`, which is not among user `"u1"`'s
seen products. -/
theorem blendCore_excludes_seen_witness :
    (BlendRow.mk prodBoot 1 ["neighbors", "bias_category"]).product.product_id ∉
      alKeys [("p1", (1 : ℚ))] :=
  blendCore_excludes_seen s2 optsW "u1" [("p1", (1 : ℚ))] _ rfl (by decide) rfl rfl
    (by rw [core_optsW]; exact List.mem_cons_self _ _)

/-- Witness for C2 (amended): the main-path row's id differs from the
canonical seed id `"p9"`. -/
theorem blendCore_excludes_seed_witness :
    (BlendRow.mk prodBoot 1 ["neighbors", "bias_category"]).product.product_id ≠ "p9" :=
  blendCore_excludes_seed s2 optsW "p9" _ rfl (by decide) rfl
    (by rw [core_optsW]; exact List.mem_cons_self _ _)

/-- Witness for C7 (amended): the main-path row carries `"bias_category"`
if and only if the three bias conditions hold (here they all do). -/
theorem blendCore_bias_tag_iff_witness :
    ("bias_category" ∈ (BlendRow.mk prodBoot 1 ["neighbors", "bias_category"]).reasons ↔
      (0 < blendBeta optsW ∧ blendBiasCats optsW ≠ [] ∧
        (BlendRow.mk prodBoot 1 ["neighbors", "bias_category"]).product.categories.any
          (fun c => decide (jsToLower c ∈ blendBiasCats optsW)) = true)) :=
  blendCore_bias_tag_iff s2 optsW _
    (by rw [core_optsW]; exact List.mem_cons_self _ _)

/-! ## Claim C4: unit norms of the stored TF-IDF vectors -/

theorem sumSq_nonneg (v : List ℝ) : 0 ≤ sumSq v := by
  unfold sumSq
  apply List.sum_nonneg
  intro x hx
  rw [List.mem_map] at hx
  obtain ⟨a, _, ha⟩ := hx
  rw [← ha]
  exact mul_self_nonneg a

theorem df_pos_of_mem_vocab {products : List Product} {t : String}
    (h : t ∈ vocabList products) : 1 ≤ dfCount products t := by
  unfold vocabList at h
  rw [mem_dedupFS] at h
  rw [List.mem_flatten] at h
  obtain ⟨doc, hdoc, ht⟩ := h
  unfold dfCount
  rw [Nat.succ_le_iff, List.length_pos_iff_exists_mem]
  exact ⟨doc, List.mem_filter.mpr ⟨hdoc, by simpa using ht⟩⟩

theorem df_le_docs {products : List Product} {t : String} :
    dfCount products t ≤ (tokenizedDocs products).length :=
  List.length_filter_le _ _

theorem idf_ge_one {products : List Product} {j : ℕ} {t : String}
    (ht : (vocabList products).get? j = some t) : 1 ≤ idfAt products j := by
  unfold idfAt
  rw [ht]
  simp only []
  have hmem : t ∈ vocabList products := List.get?_mem ht
  have h1 : 1 ≤ dfCount products t := df_pos_of_mem_vocab hmem
  have h2 : dfCount products t ≤ (tokenizedDocs products).length := df_le_docs
  have hne : ¬dfCount products t = 0 := by omega
  rw [if_neg hne]
  have hlog : 0 ≤ Real.log (((tokenizedDocs products).length + 1) / (dfCount products t + 1)) := by
    apply Real.log_nonneg
    rw [le_div_iff₀ (by positivity)]
    rw [one_mul]
    have : (dfCount products t : ℝ) ≤ (tokenizedDocs products).length := by
      exact_mod_cast h2
    linarith
  linarith

theorem sumSq_map_div (v : List ℝ) (c : ℝ) :
    sumSq (v.map (· / c)) = sumSq v / (c * c) := by
  unfold sumSq
  induction v with
  | nil => simp
  | cons x xs ih =>
    rw [List.map_cons, List.map_cons, List.sum_cons, List.map_cons, List.sum_cons, ih]
    rw [div_mul_div_comm, div_add_div_same]

theorem sumSq_normalizeVec {v : List ℝ} (hv : 0 < sumSq v) :
    sumSq (normalizeVec v) = 1 := by
  unfold normalizeVec
  have hs : Real.sqrt (sumSq v) ≠ 0 := ne_of_gt (Real.sqrt_pos.mpr hv)
  simp only [hs, if_false]
  rw [sumSq_map_div, Real.mul_self_sqrt (le_of_lt hv)]
  exact div_self (ne_of_gt hv)

theorem countOcc_pos {t : String} {toks : List String} (h : t ∈ toks) :
    1 ≤ countOcc t toks := by
  unfold countOcc
  rw [Nat.succ_le_iff, List.length_pos_iff_exists_mem]
  exact ⟨t, List.mem_filter.mpr ⟨h, by simp⟩⟩

theorem sumSq_rawVector_pos {products : List Product} {p : Product}
    (hp : p ∈ products) (hne : tokenize (docText p) ≠ []) :
    0 < sumSq (rawVector products (tokenize (docText p))) := by
  set toks := tokenize (docText p) with htoks
  obtain ⟨t0, ts, hcons⟩ := List.exists_cons_of_ne_nil hne
  have ht0 : t0 ∈ toks := by rw [hcons]; exact List.mem_cons_self _ _
  have hvocab : t0 ∈ vocabList products := by
    unfold vocabList
    rw [mem_dedupFS, List.mem_flatten]
    refine ⟨toks, ?_, ht0⟩
    unfold tokenizedDocs
    exact List.mem_map.mpr ⟨p, hp, rfl⟩
  obtain ⟨⟨j, hj⟩, hget⟩ := List.mem_iff_get.mp hvocab
  have hget? : (vocabList products).get? j = some t0 := by
    rw [List.get?_eq_get hj, hget]
  have hlen : 0 < toks.length := by
    rw [hcons]
    exact Nat.succ_pos _
  have hentry : 0 < ((countOcc t0 toks : ℝ) / toks.length) * idfAt products j := by
    apply mul_pos
    · apply div_pos
      · exact_mod_cast countOcc_pos ht0
      · exact_mod_cast hlen
    · exact lt_of_lt_of_le one_pos (idf_ge_one hget?)
  have hmem : ((countOcc t0 toks : ℝ) / toks.length) * idfAt products j ∈
      rawVector products toks := by
    unfold rawVector
    rw [List.mem_map]
    refine ⟨j, List.mem_range.mpr hj, ?_⟩
    rw [hget?]
  unfold sumSq
  have hsq : (((countOcc t0 toks : ℝ) / toks.length) * idfAt products j) *
      (((countOcc t0 toks : ℝ) / toks.length) * idfAt products j) ∈
      (rawVector products toks).map (fun x => x * x) :=
    List.mem_map.mpr ⟨_, hmem, rfl⟩
  calc (0 : ℝ) < (((countOcc t0 toks : ℝ) / toks.length) * idfAt products j) *
      (((countOcc t0 toks : ℝ) / toks.length) * idfAt products j) := mul_pos hentry hentry
    _ ≤ ((rawVector products toks).map (fun x => x * x)).sum := by
      apply List.single_le_sum _ _ hsq
      intro x hx
      rw [List.mem_map] at hx
      obtain ⟨a, _, ha⟩ := hx
      rw [← ha]
      exact mul_self_nonneg a

theorem rawVector_nil_toks (products : List Product) :
    rawVector products [] = List.replicate (vocabList products).length 0 := by
  unfold rawVector
  rw [List.eq_replicate_iff]
  constructor
  · rw [List.length_map, List.length_range]
  · intro x hx
    rw [List.mem_map] at hx
    obtain ⟨j, _, hj⟩ := hx
    rw [← hj]
    cases hget : (vocabList products).get? j with
    | none => rfl
    | some t =>
      simp only []
      rw [show countOcc t ([] : List String) = 0 from rfl]
      norm_num

theorem normalizeVec_replicate_zero (n : ℕ) :
    normalizeVec (List.replicate n (0 : ℝ)) = List.replicate n 0 := by
  have hs : sumSq (List.replicate n (0 : ℝ)) = 0 := by
    unfold sumSq
    rw [List.map_replicate, List.sum_replicate]
    norm_num
  unfold normalizeVec
  simp [hs, Real.sqrt_zero, List.map_replicate]

/-- C4: every per-product vector stored by `buildTFIDF` is the normalized
`docVector` of a catalog product; a product whose synthesized document has
at least one token gets a vector of Euclidean norm `1` (well within the
stated `1e-9` tolerance, since the model over `ℝ` gives exactly `1`), and a
product with no tokens gets the all-zero vector. -/
theorem tfidf_vectors_unit_norm :
    ∀ (products : List Product) (p : Product), p ∈ products →
      ((tokenize (docText p) ≠ [] →
          |Real.sqrt (sumSq (docVector products p)) - 1| ≤ 1 / 1000000000) ∧
        (tokenize (docText p) = [] →
          docVector products p = List.replicate (vocabList products).length 0)) ∧
      ∀ e ∈ tfidfVectors products, ∃ q ∈ products, e = (q.product_id, docVector products q) := by
  intro products p hp
  refine ⟨⟨?_, ?_⟩, ?_⟩
  · intro hne
    have hpos := sumSq_rawVector_pos hp hne
    have h1 : sumSq (docVector products p) = 1 := sumSq_normalizeVec hpos
    rw [h1, Real.sqrt_one]
    norm_num
  · intro hnil
    unfold docVector
    rw [hnil, rawVector_nil_toks, normalizeVec_replicate_zero]
  · unfold tfidfVectors
    suffices haux : ∀ (l : List Product) (acc : List (String × List ℝ)),
        (∀ e ∈ acc, ∃ q ∈ products, e = (q.product_id, docVector products q)) →
        (∀ q ∈ l, q ∈ products) →
        ∀ e ∈ l.foldl (fun m q => alSet m q.product_id (docVector products q)) acc,
          ∃ q ∈ products, e = (q.product_id, docVector products q) by
      exact haux products [] (by simp) (fun q hq => hq)
    intro l
    induction l with
    | nil =>
      intro acc hacc _ e he
      exact hacc e he
    | cons q rest ih =>
      intro acc hacc hsub e he
      rw [List.foldl_cons] at he
      refine ih _ ?_ (fun q' hq' => hsub q' (List.mem_cons_of_mem _ hq')) e he
      intro e' he'
      rcases mem_alSet he' with hm | heq
      · exact hacc e' hm
      · exact ⟨q, hsub q (List.mem_cons_self _ _), heq⟩

theorem toFixed2_ten : toFixed2 10 = "10.00" := by
  unfold toFixed2
  rw [show ((10 : ℚ) * 100 + 1 / 2) = 2001 / 2 from by norm_num]
  rw [show (⌊(2001 / 2 : ℚ)⌋ : ℤ) = 1000 from by norm_num]
  rfl

theorem docText_prodShoe : docText prodShoe = "shoe c 10.00" := by
  show "shoe" ++ " " ++ String.intercalate " " ["c"] ++ " " ++ toFixed2 10 = "shoe c 10.00"
  rw [toFixed2_ten]
  rfl

/-- Witness for C4: the one-product catalog's stored vector for `"p1"`
(document `"shoe c 10.00"`, which tokenizes to a nonempty list) has
Euclidean norm `1` within `1e-9`. -/
theorem tfidf_vectors_unit_norm_witness :
    |Real.sqrt (sumSq (docVector [prodShoe] prodShoe)) - 1| ≤ 1 / 1000000000 :=
  ((tfidf_vectors_unit_norm [prodShoe] prodShoe (List.mem_singleton.mpr rfl)).1).1
    (by rw [docText_prodShoe]; decide)

/-! ## Claim C8: the blend order at the alpha extremes -/

theorem ite_none_some_facts {γ : Type _} {c : Prop} [Decidable c] {z y : γ}
    (h : (if c then none else some z) = some y) : z = y ∧ ¬c := by
  split_ifs at h with hc
  exact ⟨Option.some.inj h, hc⟩

theorem blendStep_score {s : EngineState} {opts : BlendOpts}
    {nC nCF : List (String × ℝ)} {hsn : List String}
    {rs : List (String × List String)} {pid : String} {y : String × ℝ × List String}
    (hbeta : blendBeta opts = 0)
    (h : blendStep s opts nC nCF hsn rs pid = some y) :
    y.2.1 = blendAlpha opts * alGetD nC pid 0 + (1 - blendAlpha opts) * alGetD nCF pid 0 ∧
      0 < y.2.1 := by
  have hbh : (decide (0 < blendBeta opts) && decide (blendBiasCats opts ≠ []) &&
      (match alGet (byId s) pid with
       | some p => p.categories.any (fun c => decide (jsToLower c ∈ blendBiasCats opts))
       | none => false)) = false := by
    rw [hbeta, decide_eq_false (lt_irrefl (0 : ℝ)), Bool.false_and, Bool.false_and]
  unfold blendStep at h
  split_ifs at h
  simp only [hbh, Bool.false_eq_true, if_false] at h
  cases hby : alGet (byId s) pid with
  | none =>
    rw [hby] at h
    split_ifs at h
  | some p =>
    rw [hby] at h
    obtain ⟨hz, hc⟩ := ite_none_some_facts h
    constructor
    · rw [← hz]
    · rw [← hz]
      exact not_le.mp hc

theorem norMax_nonneg (m : List (String × ℝ)) : 0 ≤ norMax m := by
  unfold norMax
  suffices haux : ∀ (l : List (String × ℝ)) (init : ℝ), 0 ≤ init →
      0 ≤ l.foldl (fun acc kv => if acc < kv.2 then kv.2 else acc) init from
    haux m 0 le_rfl
  intro l
  induction l with
  | nil => intro init h; exact h
  | cons kv rest ih =>
    intro init h
    rw [List.foldl_cons]
    by_cases hlt : init < kv.2
    · rw [if_pos hlt]
      exact ih _ (le_of_lt (lt_of_le_of_lt h hlt))
    · rw [if_neg hlt]
      exact ih _ h

theorem alGet_map_values {α β γ : Type _} [DecidableEq α]
    (m : List (α × β)) (f : β → γ) (k : α) :
    alGet (m.map (fun kv => (kv.1, f kv.2))) k = (alGet m k).map f := by
  induction m with
  | nil => rfl
  | cons kv rest ih =>
    obtain ⟨k0, v0⟩ := kv
    by_cases h : k0 = k
    · simp [alGet_cons, h]
    · simp [alGet_cons, h, ih]

theorem alGet_map_div (m : List (String × ℝ)) (c : ℝ) (k : String) :
    alGet (m.map (fun kv => (kv.1, kv.2 / c))) k = (alGet m k).map (· / c) := by
  induction m with
  | nil => rfl
  | cons kv rest ih =>
    obtain ⟨k0, v0⟩ := kv
    by_cases h : k0 = k
    · simp [alGet_cons, h]
    · simp [alGet_cons, h, ih]

theorem alGetD_normalize01 {m : List (String × ℝ)} {k : String}
    (hmx : ¬norMax m ≤ 0) :
    alGetD (normalize01 m) k 0 = alGetD m k 0 / norMax m := by
  unfold normalize01
  rw [if_neg hmx]
  unfold alGetD
  rw [alGet_map_div]
  cases alGet m k with
  | none =>
    simp only [Option.map_none', Option.getD_none]
    exact (zero_div _).symm
  | some v => rfl

theorem alGetD_normalize01_of_le {m : List (String × ℝ)} {k : String}
    (hmx : norMax m ≤ 0) : alGetD (normalize01 m) k 0 = 0 := by
  unfold normalize01
  rw [if_pos hmx]
  rfl

theorem blendCore_pairwise_of_val (s : EngineState) (opts : BlendOpts) (val : String → ℝ)
    (hval : ∀ y y' : String × ℝ × List String,
      blendStep s opts (normalize01 (blendContent s opts).1)
          (normalize01 (blendCF s opts (blendContent s opts).2).1)
          (blendHaveSeen s opts) (blendCF s opts (blendContent s opts).2).2 y.1 = some y →
        blendStep s opts (normalize01 (blendContent s opts).1)
          (normalize01 (blendCF s opts (blendContent s opts).2).1)
          (blendHaveSeen s opts) (blendCF s opts (blendContent s opts).2).2 y'.1 = some y' →
        y'.2.1 ≤ y.2.1 → val y'.1 ≤ val y.1) :
    (recommendBlendCore s opts).Pairwise (fun r1 r2 =>
      val r2.product.product_id ≤ val r1.product.product_id) := by
  unfold recommendBlendCore
  rw [List.pairwise_filterMap]
  haveI : IsTotal (String × ℝ × List String) (fun x y => y.2.1 ≤ x.2.1) :=
    ⟨fun a b => le_total b.2.1 a.2.1⟩
  haveI : IsTrans (String × ℝ × List String) (fun x y => y.2.1 ≤ x.2.1) :=
    ⟨fun _ _ _ h1 h2 => le_trans h2 h1⟩
  have hsorted : (sortByScoreDesc (fun x : String × ℝ × List String => x.2.1)
      ((dedupFS (alKeys (normalize01 (blendContent s opts).1) ++
          alKeys (normalize01 (blendCF s opts (blendContent s opts).2).1))).filterMap
        (blendStep s opts (normalize01 (blendContent s opts).1)
          (normalize01 (blendCF s opts (blendContent s opts).2).1)
          (blendHaveSeen s opts) (blendCF s opts (blendContent s opts).2).2))).Pairwise
      (fun x y => y.2.1 ≤ x.2.1) :=
    List.sorted_insertionSort _ _
  have htake := List.Pairwise.sublist (List.take_sublist (blendLimit opts) _) hsorted
  refine htake.imp_of_mem ?_
  intro a b ha hb hr x hx y hy
  have ha' : a ∈ (dedupFS (alKeys (normalize01 (blendContent s opts).1) ++
      alKeys (normalize01 (blendCF s opts (blendContent s opts).2).1))).filterMap
        (blendStep s opts (normalize01 (blendContent s opts).1)
          (normalize01 (blendCF s opts (blendContent s opts).2).1)
          (blendHaveSeen s opts) (blendCF s opts (blendContent s opts).2).2) :=
    (List.perm_insertionSort _ _).mem_iff.mp (List.mem_of_mem_take ha)
  have hb' : b ∈ (dedupFS (alKeys (normalize01 (blendContent s opts).1) ++
      alKeys (normalize01 (blendCF s opts (blendContent s opts).2).1))).filterMap
        (blendStep s opts (normalize01 (blendContent s opts).1)
          (normalize01 (blendCF s opts (blendContent s opts).2).1)
          (blendHaveSeen s opts) (blendCF s opts (blendContent s opts).2).2) :=
    (List.perm_insertionSort _ _).mem_iff.mp (List.mem_of_mem_take hb)
  obtain ⟨pa, _, hstepa⟩ := List.mem_filterMap.mp ha'
  obtain ⟨pb, _, hstepb⟩ := List.mem_filterMap.mp hb'
  have hfa := blendStep_fst hstepa
  have hfb := blendStep_fst hstepb
  subst hfa
  subst hfb
  cases hbya : alGet (byId s) a.1 with
  | none =>
    rw [hbya] at hx
    exact absurd hx (by simp)
  | some p =>
    rw [hbya] at hx
    cases hbyb : alGet (byId s) b.1 with
    | none =>
      rw [hbyb] at hy
      exact absurd hy (by simp)
    | some q =>
      rw [hbyb] at hy
      simp only [Option.map_some', Option.mem_def, Option.some.injEq] at hx hy
      have hxa : x.product = p := by rw [← hx]
      have hyb : y.product = q := by rw [← hy]
      rw [hxa, hyb, byId_product_id hbya, byId_product_id hbyb]
      exact hval a b hstepa hstepb hr

/-- C8 (amended): with `beta = 0`, the main (non-fallback) blend output is
monotonically consistent with the content score map when `alpha = 1` and
with the collaborative score map when `alpha = 0` — each earlier row's
component score is at least each later row's. The claim's original form,
covering the whole output, is refuted by
`blend_fallback_breaks_content_order`: the empty-result popularity fallback
is ordered by popularity, which can invert the content order. -/
theorem blend_alpha_extremes_monotone (s : EngineState) (opts : BlendOpts)
    (hbeta : blendBeta opts = 0) :
    (blendAlpha opts = 1 →
      (recommendBlendCore s opts).Pairwise (fun r1 r2 =>
        alGetD (blendContent s opts).1 r2.product.product_id 0 ≤
          alGetD (blendContent s opts).1 r1.product.product_id 0)) ∧
    (blendAlpha opts = 0 →
      (recommendBlendCore s opts).Pairwise (fun r1 r2 =>
        alGetD (blendCF s opts (blendContent s opts).2).1 r2.product.product_id 0 ≤
          alGetD (blendCF s opts (blendContent s opts).2).1 r1.product.product_id 0)) := by
  constructor
  · intro halpha
    refine blendCore_pairwise_of_val s opts
      (fun pid => alGetD (blendContent s opts).1 pid 0) ?_
    intro y y' hy hy' hle
    obtain ⟨hsc, hpos⟩ := blendStep_score hbeta hy
    obtain ⟨hsc', hpos'⟩ := blendStep_score hbeta hy'
    rw [halpha] at hsc hsc'
    rw [show ∀ u v : ℝ, 1 * u + (1 - 1) * v = u from fun u v => by ring] at hsc hsc'
    by_cases hmx : norMax (blendContent s opts).1 ≤ 0
    · rw [hsc, alGetD_normalize01_of_le hmx] at hpos
      exact absurd hpos (lt_irrefl 0)
    · have hmxpos : 0 < norMax (blendContent s opts).1 := not_le.mp hmx
      rw [hsc, alGetD_normalize01 hmx] at hle hpos
      rw [hsc', alGetD_normalize01 hmx] at hle hpos'
      exact (div_le_div_iff_of_pos_right hmxpos).mp hle
  · intro halpha
    refine blendCore_pairwise_of_val s opts
      (fun pid => alGetD (blendCF s opts (blendContent s opts).2).1 pid 0) ?_
    intro y y' hy hy' hle
    obtain ⟨hsc, hpos⟩ := blendStep_score hbeta hy
    obtain ⟨hsc', hpos'⟩ := blendStep_score hbeta hy'
    rw [halpha] at hsc hsc'
    rw [show ∀ u v : ℝ, 0 * u + (1 - 0) * v = v from fun u v => by ring] at hsc hsc'
    by_cases hmx : norMax (blendCF s opts (blendContent s opts).2).1 ≤ 0
    · rw [hsc, alGetD_normalize01_of_le hmx] at hpos
      exact absurd hpos (lt_irrefl 0)
    · have hmxpos : 0 < norMax (blendCF s opts (blendContent s opts).2).1 := not_le.mp hmx
      rw [hsc, alGetD_normalize01 hmx] at hle hpos
      rw [hsc', alGetD_normalize01 hmx] at hle hpos'
      exact (div_le_div_iff_of_pos_right hmxpos).mp hle

/-! ## Evaluating the main path on the two-candidate collaborative scenario -/

theorem cosineSparse_s9 :
    cosineSparse [("p0", (1 : ℚ))] [("p0", (1 : ℚ)), ("p2", (3 : ℚ)), ("p3", (1 : ℚ))] =
      1 / Real.sqrt 11 := by
  unfold cosineSparse
  rw [show sumSqSparse [("p0", (1 : ℚ))] = 1 from by norm_num [sumSqSparse],
    show sumSqSparse [("p0", (1 : ℚ)), ("p2", (3 : ℚ)), ("p3", (1 : ℚ))] = 11 from by
      norm_num [sumSqSparse]]
  rw [if_neg (by norm_num)]
  norm_num [alGetD, alGet]

theorem cosineSparse_s9_pos :
    0 < cosineSparse [("p0", (1 : ℚ))] [("p0", (1 : ℚ)), ("p2", (3 : ℚ)), ("p3", (1 : ℚ))] := by
  rw [cosineSparse_s9]
  have h11 : (0 : ℝ) < Real.sqrt 11 := Real.sqrt_pos.mpr (by norm_num)
  positivity

theorem topKNeighbors_s9 :
    topKNeighbors s9 "u1" 30 =
      [("u2", cosineSparse [("p0", (1 : ℚ))]
        [("p0", (1 : ℚ)), ("p2", (3 : ℚ)), ("p3", (1 : ℚ))])] := by
  unfold topKNeighbors
  simp only [show alGet s9.userVectors (canon "u1") = some [("p0", (1 : ℚ))] from rfl]
  rw [show s9.userVectors.filter (fun kv => kv.1 ≠ canon "u1") =
    [("u2", [("p0", (1 : ℚ)), ("p2", (3 : ℚ)), ("p3", (1 : ℚ))])] from rfl]
  rw [List.filterMap_cons]
  simp only [if_pos cosineSparse_s9_pos, List.filterMap_nil]
  rfl

theorem blendContent_s9 : blendContent s9 opts9 = ([], []) := rfl

theorem blendCF_s9 :
    blendCF s9 opts9 [] =
      ([("p2", 0 + cosineSparse [("p0", (1 : ℚ))]
            [("p0", (1 : ℚ)), ("p2", (3 : ℚ)), ("p3", (1 : ℚ))] * ((3 : ℚ) : ℝ)),
        ("p3", 0 + cosineSparse [("p0", (1 : ℚ))]
            [("p0", (1 : ℚ)), ("p2", (3 : ℚ)), ("p3", (1 : ℚ))] * ((1 : ℚ) : ℝ))],
       [("p2", ["neighbors"]), ("p3", ["neighbors"])]) := by
  unfold blendCF
  rw [if_pos (show strTruthy opts9.userId = true from rfl)]
  unfold cfScoresForUser
  simp only [show alGet s9.userVectors (canon (opts9.userId.getD "")) =
    some [("p0", (1 : ℚ))] from rfl]
  rw [if_neg (by decide)]
  rw [show canon (opts9.userId.getD "") = "u1" from rfl, topKNeighbors_s9]
  rfl

theorem norMax_pair {k1 k2 : String} {v1 v2 : ℝ} (h1 : 0 < v1) (h2 : v2 ≤ v1) :
    norMax [(k1, v1), (k2, v2)] = v1 := by
  unfold norMax
  rw [List.foldl_cons, List.foldl_cons, List.foldl_nil, if_pos h1, if_neg (not_lt.mpr h2)]

theorem normalize01_pair {k1 k2 : String} {v1 v2 : ℝ} (h1 : 0 < v1) (h2 : v2 ≤ v1) :
    normalize01 [(k1, v1), (k2, v2)] = [(k1, 1), (k2, v2 / v1)] := by
  unfold normalize01
  rw [norMax_pair h1 h2, if_neg (not_le.mpr h1), List.map_cons, List.map_cons, List.map_nil,
    div_self (ne_of_gt h1)]

theorem blendStep_s9_p2 (v : ℝ) :
    blendStep s9 opts9 [] [("p2", (1 : ℝ)), ("p3", v)] ["p0"]
      [("p2", ["neighbors"]), ("p3", ["neighbors"])] "p2" =
      some ("p2", 1, ["neighbors"]) := by
  have halpha : blendAlpha opts9 = 0 := by
    unfold blendAlpha opts9
    norm_num
  have hbh : (decide (0 < blendBeta opts9) && decide (blendBiasCats opts9 ≠ []) &&
      (match alGet (byId s9) "p2" with
       | some p => p.categories.any (fun c => decide (jsToLower c ∈ blendBiasCats opts9))
       | none => false)) = false := by
    rw [show decide (blendBiasCats opts9 ≠ []) = false from by decide]
    rw [Bool.and_false, Bool.false_and]
  unfold blendStep
  rw [if_neg (by decide), if_neg (by decide)]
  simp only [hbh, Bool.false_eq_true, if_false]
  have hsc : blendAlpha opts9 * alGetD ([] : List (String × ℝ)) "p2" 0 +
      (1 - blendAlpha opts9) * alGetD [("p2", (1 : ℝ)), ("p3", v)] "p2" 0 = 1 := by
    rw [halpha, show alGetD ([] : List (String × ℝ)) "p2" 0 = 0 from rfl,
      show alGetD [("p2", (1 : ℝ)), ("p3", v)] "p2" 0 = 1 from rfl]
    norm_num
  rw [hsc, if_neg (by norm_num)]
  rfl

theorem blendStep_s9_p3 (v : ℝ) (hv : 0 < v) :
    blendStep s9 opts9 [] [("p2", (1 : ℝ)), ("p3", v)] ["p0"]
      [("p2", ["neighbors"]), ("p3", ["neighbors"])] "p3" =
      some ("p3", v, ["neighbors"]) := by
  have halpha : blendAlpha opts9 = 0 := by
    unfold blendAlpha opts9
    norm_num
  have hbh : (decide (0 < blendBeta opts9) && decide (blendBiasCats opts9 ≠ []) &&
      (match alGet (byId s9) "p3" with
       | some p => p.categories.any (fun c => decide (jsToLower c ∈ blendBiasCats opts9))
       | none => false)) = false := by
    rw [show decide (blendBiasCats opts9 ≠ []) = false from by decide]
    rw [Bool.and_false, Bool.false_and]
  unfold blendStep
  rw [if_neg (by decide), if_neg (by decide)]
  simp only [hbh, Bool.false_eq_true, if_false]
  have hsc : blendAlpha opts9 * alGetD ([] : List (String × ℝ)) "p3" 0 +
      (1 - blendAlpha opts9) * alGetD [("p2", (1 : ℝ)), ("p3", v)] "p3" 0 = v := by
    rw [halpha, show alGetD ([] : List (String × ℝ)) "p3" 0 = 0 from rfl,
      show alGetD [("p2", (1 : ℝ)), ("p3", v)] "p3" 0 = v from rfl]
    ring
  rw [hsc, if_neg (not_le.mpr hv)]
  rfl

theorem core_s9 :
    recommendBlendCore s9 opts9 =
      [⟨prodQ2, 1, ["neighbors"]⟩,
        ⟨prodQ3, round4 ((0 + cosineSparse [("p0", (1 : ℚ))]
            [("p0", (1 : ℚ)), ("p2", (3 : ℚ)), ("p3", (1 : ℚ))] * ((1 : ℚ) : ℝ)) /
          (0 + cosineSparse [("p0", (1 : ℚ))]
            [("p0", (1 : ℚ)), ("p2", (3 : ℚ)), ("p3", (1 : ℚ))] * ((3 : ℚ) : ℝ))),
          ["neighbors"]⟩] := by
  have hσ := cosineSparse_s9_pos
  have hv2 : (0 : ℝ) < 0 + cosineSparse [("p0", (1 : ℚ))]
      [("p0", (1 : ℚ)), ("p2", (3 : ℚ)), ("p3", (1 : ℚ))] * ((3 : ℚ) : ℝ) := by
    push_cast
    linarith
  have hv3 : (0 : ℝ) < 0 + cosineSparse [("p0", (1 : ℚ))]
      [("p0", (1 : ℚ)), ("p2", (3 : ℚ)), ("p3", (1 : ℚ))] * ((1 : ℚ) : ℝ) := by
    push_cast
    linarith
  have h32 : 0 + cosineSparse [("p0", (1 : ℚ))]
      [("p0", (1 : ℚ)), ("p2", (3 : ℚ)), ("p3", (1 : ℚ))] * ((1 : ℚ) : ℝ) ≤
      0 + cosineSparse [("p0", (1 : ℚ))]
      [("p0", (1 : ℚ)), ("p2", (3 : ℚ)), ("p3", (1 : ℚ))] * ((3 : ℚ) : ℝ) := by
    push_cast
    linarith
  simp only [recommendBlendCore, blendContent_s9, blendCF_s9, normalize01_nil,
    normalize01_pair hv2 h32]
  rw [show blendHaveSeen s9 opts9 = ["p0"] from rfl]
  rw [show dedupFS (alKeys ([] : List (String × ℝ)) ++
    alKeys [("p2", (1 : ℝ)), ("p3", (0 + cosineSparse [("p0", (1 : ℚ))]
        [("p0", (1 : ℚ)), ("p2", (3 : ℚ)), ("p3", (1 : ℚ))] * ((1 : ℚ) : ℝ)) /
      (0 + cosineSparse [("p0", (1 : ℚ))]
        [("p0", (1 : ℚ)), ("p2", (3 : ℚ)), ("p3", (1 : ℚ))] * ((3 : ℚ) : ℝ)))]) =
    ["p2", "p3"] from rfl]
  rw [List.filterMap_cons, List.filterMap_cons]
  simp only [blendStep_s9_p2, blendStep_s9_p3 _ (div_pos hv3 hv2), List.filterMap_nil]
  rw [show sortByScoreDesc (fun x : String × ℝ × List String => x.2.1)
      [("p2", (1 : ℝ), ["neighbors"]),
        ("p3", (0 + cosineSparse [("p0", (1 : ℚ))]
            [("p0", (1 : ℚ)), ("p2", (3 : ℚ)), ("p3", (1 : ℚ))] * ((1 : ℚ) : ℝ)) /
          (0 + cosineSparse [("p0", (1 : ℚ))]
            [("p0", (1 : ℚ)), ("p2", (3 : ℚ)), ("p3", (1 : ℚ))] * ((3 : ℚ) : ℝ)),
          ["neighbors"])] =
      (if (0 + cosineSparse [("p0", (1 : ℚ))]
            [("p0", (1 : ℚ)), ("p2", (3 : ℚ)), ("p3", (1 : ℚ))] * ((1 : ℚ) : ℝ)) /
          (0 + cosineSparse [("p0", (1 : ℚ))]
            [("p0", (1 : ℚ)), ("p2", (3 : ℚ)), ("p3", (1 : ℚ))] * ((3 : ℚ) : ℝ)) ≤ (1 : ℝ)
      then [("p2", (1 : ℝ), ["neighbors"]),
        ("p3", (0 + cosineSparse [("p0", (1 : ℚ))]
            [("p0", (1 : ℚ)), ("p2", (3 : ℚ)), ("p3", (1 : ℚ))] * ((1 : ℚ) : ℝ)) /
          (0 + cosineSparse [("p0", (1 : ℚ))]
            [("p0", (1 : ℚ)), ("p2", (3 : ℚ)), ("p3", (1 : ℚ))] * ((3 : ℚ) : ℝ)),
          ["neighbors"])]
      else [("p3", (0 + cosineSparse [("p0", (1 : ℚ))]
            [("p0", (1 : ℚ)), ("p2", (3 : ℚ)), ("p3", (1 : ℚ))] * ((1 : ℚ) : ℝ)) /
          (0 + cosineSparse [("p0", (1 : ℚ))]
            [("p0", (1 : ℚ)), ("p2", (3 : ℚ)), ("p3", (1 : ℚ))] * ((3 : ℚ) : ℝ)),
          ["neighbors"]), ("p2", (1 : ℝ), ["neighbors"])]) from rfl]
  rw [if_pos ((div_le_one hv2).mpr h32)]
  rw [show blendLimit opts9 = 5 from rfl]
  rw [show List.take 5 [("p2", (1 : ℝ), ["neighbors"]),
      ("p3", (0 + cosineSparse [("p0", (1 : ℚ))]
          [("p0", (1 : ℚ)), ("p2", (3 : ℚ)), ("p3", (1 : ℚ))] * ((1 : ℚ) : ℝ)) /
        (0 + cosineSparse [("p0", (1 : ℚ))]
          [("p0", (1 : ℚ)), ("p2", (3 : ℚ)), ("p3", (1 : ℚ))] * ((3 : ℚ) : ℝ)),
        ["neighbors"])] =
    [("p2", (1 : ℝ), ["neighbors"]),
      ("p3", (0 + cosineSparse [("p0", (1 : ℚ))]
          [("p0", (1 : ℚ)), ("p2", (3 : ℚ)), ("p3", (1 : ℚ))] * ((1 : ℚ) : ℝ)) /
        (0 + cosineSparse [("p0", (1 : ℚ))]
          [("p0", (1 : ℚ)), ("p2", (3 : ℚ)), ("p3", (1 : ℚ))] * ((3 : ℚ) : ℝ)),
        ["neighbors"])] from rfl]
  rw [List.filterMap_cons, List.filterMap_cons]
  simp only [show alGet (byId s9) "p2" = some prodQ2 from rfl,
    show alGet (byId s9) "p3" = some prodQ3 from rfl, Option.map_some', List.filterMap_nil,
    round4_one]

/-- Witness for C8 (amended): at `alpha = 0`, `beta = 0` the main-path
output of the two-candidate collaborative scenario is the nonempty list
`["p2", "p3"]`, and it is pairwise monotone in the collaborative score
map (a genuine pair: `"p2"` scores `3×` the neighbor similarity, `"p3"`
only `1×`). -/
theorem blend_alpha_extremes_monotone_witness :
    (recommendBlendCore s9 opts9).map (fun r => r.product.product_id) = ["p2", "p3"] ∧
      (recommendBlendCore s9 opts9).Pairwise (fun r1 r2 =>
        alGetD (blendCF s9 opts9 (blendContent s9 opts9).2).1 r2.product.product_id 0 ≤
          alGetD (blendCF s9 opts9 (blendContent s9 opts9).2).1 r1.product.product_id 0) :=
  ⟨by rw [core_s9]; rfl,
    (blend_alpha_extremes_monotone s9 opts9 (by unfold blendBeta opts9; norm_num)).2
      (by unfold blendAlpha opts9; norm_num)⟩

/-! ## The ordering counterexample: evaluating the scenario state -/

theorem toFixed2_1111 : toFixed2 (1111 / 100) = "11.11" := by
  unfold toFixed2
  rw [show ((1111 / 100 : ℚ) * 100 + 1 / 2) = 2223 / 2 from by norm_num]
  rw [show (⌊(2223 / 2 : ℚ)⌋ : ℤ) = 1111 from by norm_num]
  rfl

theorem toFixed2_3333 : toFixed2 (3333 / 100) = "33.33" := by
  unfold toFixed2
  rw [show ((3333 / 100 : ℚ) * 100 + 1 / 2) = 6667 / 2 from by norm_num]
  rw [show (⌊(6667 / 2 : ℚ)⌋ : ℤ) = 3333 from by norm_num]
  rfl

theorem toFixed2_2222 : toFixed2 (2222 / 100) = "22.22" := by
  unfold toFixed2
  rw [show ((2222 / 100 : ℚ) * 100 + 1 / 2) = 4445 / 2 from by norm_num]
  rw [show (⌊(4445 / 2 : ℚ)⌋ : ℤ) = 2222 from by norm_num]
  rfl

theorem docText_prodP1 : docText prodP1 = "gamma delta  11.11" := by
  show "gamma delta" ++ " " ++ String.intercalate " " [] ++ " " ++ toFixed2 (1111 / 100) =
    "gamma delta  11.11"
  rw [toFixed2_1111]
  rfl

theorem docText_prodP2 : docText prodP2 = "beta common  33.33" := by
  show "beta common" ++ " " ++ String.intercalate " " [] ++ " " ++ toFixed2 (3333 / 100) =
    "beta common  33.33"
  rw [toFixed2_3333]
  rfl

theorem docText_prodP3 : docText prodP3 = "alpha common  22.22" := by
  show "alpha common" ++ " " ++ String.intercalate " " [] ++ " " ++ toFixed2 (2222 / 100) =
    "alpha common  22.22"
  rw [toFixed2_2222]
  rfl

theorem tokenizedDocs_s8 :
    tokenizedDocs s8.products =
      [["gamma", "delta", "11", "11"], ["beta", "common", "33", "33"],
        ["alpha", "common", "22", "22"]] := by
  unfold tokenizedDocs
  rw [show s8.products = [prodP1, prodP2, prodP3] from rfl]
  rw [List.map_cons, List.map_cons, List.map_cons, List.map_nil,
    docText_prodP1, docText_prodP2, docText_prodP3]
  decide

theorem vocabList_s8 :
    vocabList s8.products =
      ["gamma", "delta", "11", "beta", "common", "33", "alpha", "22"] := by
  unfold vocabList
  rw [tokenizedDocs_s8]
  decide

theorem docVector_length (products : List Product) (p : Product) :
    (docVector products p).length = (vocabList products).length := by
  unfold docVector normalizeVec rawVector
  simp

theorem normalizeVec_getD (v : List ℝ) (j : ℕ) :
    (normalizeVec v).getD j 0 =
      v.getD j 0 / (if Real.sqrt (sumSq v) = 0 then 1 else Real.sqrt (sumSq v)) := by
  show (v.map (· / (if Real.sqrt (sumSq v) = 0 then 1 else Real.sqrt (sumSq v)))).getD j 0 =
    v.getD j 0 / (if Real.sqrt (sumSq v) = 0 then 1 else Real.sqrt (sumSq v))
  by_cases hj : j < v.length
  · have hl : j < (v.map (· / (if Real.sqrt (sumSq v) = 0 then 1
        else Real.sqrt (sumSq v)))).length := by
      rw [List.length_map]
      exact hj
    rw [List.getD_eq_getElem _ _ hl, List.getD_eq_getElem _ _ hj, List.getElem_map]
  · have h1 : v.length ≤ j := le_of_not_lt hj
    have h2 : (v.map (· / (if Real.sqrt (sumSq v) = 0 then 1
        else Real.sqrt (sumSq v)))).length ≤ j := by
      rw [List.length_map]
      exact h1
    rw [List.getD_eq_default _ _ h2, List.getD_eq_default _ _ h1]
    exact (zero_div _).symm

theorem normFactor_pos (v : List ℝ) :
    0 < (if Real.sqrt (sumSq v) = 0 then 1 else Real.sqrt (sumSq v)) := by
  split_ifs with h
  · exact one_pos
  · exact lt_of_le_of_ne (Real.sqrt_nonneg _) (Ne.symm h)

theorem rawVector_getD {products : List Product} {toks : List String} {j : ℕ} {t : String}
    (ht : (vocabList products).get? j = some t) :
    (rawVector products toks).getD j 0 =
      ((countOcc t toks : ℝ) / toks.length) * idfAt products j := by
  have hj : j < (vocabList products).length := by
    rcases List.get?_eq_some.mp ht with ⟨h, _⟩
    exact h
  unfold rawVector
  have hl : j < ((List.range (vocabList products).length).map (fun j =>
      match (vocabList products).get? j with
      | none => 0
      | some t => ((countOcc t toks : ℝ) / toks.length) * idfAt products j)).length := by
    rw [List.length_map, List.length_range]
    exact hj
  rw [List.getD_eq_getElem _ _ hl, List.getElem_map, List.getElem_range, ht]

theorem docVector_getD_zero {products : List Product} {p : Product} {j : ℕ} {t : String}
    (ht : (vocabList products).get? j = some t)
    (hc : countOcc t (tokenize (docText p)) = 0) :
    (docVector products p).getD j 0 = 0 := by
  unfold docVector
  rw [normalizeVec_getD, rawVector_getD ht, hc]
  norm_num

theorem docVector_getD_pos {products : List Product} {p : Product} {j : ℕ} {t : String}
    (ht : (vocabList products).get? j = some t)
    (hc : 1 ≤ countOcc t (tokenize (docText p)))
    (hne : tokenize (docText p) ≠ []) :
    0 < (docVector products p).getD j 0 := by
  unfold docVector
  rw [normalizeVec_getD, rawVector_getD ht]
  apply div_pos
  · apply mul_pos
    · apply div_pos
      · exact_mod_cast hc
      · have : 0 < (tokenize (docText p)).length := List.length_pos_of_ne_nil hne
        exact_mod_cast this
    · exact lt_of_lt_of_le one_pos (idf_ge_one ht)
  · exact normFactor_pos _

theorem docVector_getD_nonneg (products : List Product) (p : Product) (j : ℕ) :
    0 ≤ (docVector products p).getD j 0 := by
  by_cases hj : j < (vocabList products).length
  · have ht : (vocabList products).get? j =
        some ((vocabList products).get ⟨j, hj⟩) := List.get?_eq_get hj
    unfold docVector
    rw [normalizeVec_getD, rawVector_getD ht]
    apply div_nonneg
    · apply mul_nonneg
      · apply div_nonneg
        · exact Nat.cast_nonneg _
        · exact Nat.cast_nonneg _
      · exact le_trans zero_le_one (idf_ge_one ht)
    · exact le_of_lt (normFactor_pos _)
  · have hlen : (docVector products p).length ≤ j := by
      rw [docVector_length]
      exact le_of_not_lt hj
    rw [List.getD_eq_default _ _ hlen]

theorem cos_p3_p1_zero :
    cosine (docVector s8.products prodP3) (docVector s8.products prodP1) = 0 := by
  have hdot : loopSum (docVector s8.products prodP3).length
      (fun i => (docVector s8.products prodP3).getD i 0 *
        (docVector s8.products prodP1).getD i 0) = 0 := by
    unfold loopSum
    apply List.sum_eq_zero
    intro x hx
    rw [List.mem_map] at hx
    obtain ⟨i, hi, rfl⟩ := hx
    rw [List.mem_range, docVector_length s8.products prodP3, vocabList_s8] at hi
    have hi8 : i < 8 := by simpa using hi
    interval_cases i
    · rw [docVector_getD_zero (show (vocabList s8.products).get? 0 = some "gamma" by
        rw [vocabList_s8]; rfl) (show countOcc "gamma" (tokenize (docText prodP3)) = 0 by
        rw [docText_prodP3]; decide), zero_mul]
    · rw [docVector_getD_zero (show (vocabList s8.products).get? 1 = some "delta" by
        rw [vocabList_s8]; rfl) (show countOcc "delta" (tokenize (docText prodP3)) = 0 by
        rw [docText_prodP3]; decide), zero_mul]
    · rw [docVector_getD_zero (show (vocabList s8.products).get? 2 = some "11" by
        rw [vocabList_s8]; rfl) (show countOcc "11" (tokenize (docText prodP3)) = 0 by
        rw [docText_prodP3]; decide), zero_mul]
    · rw [docVector_getD_zero (show (vocabList s8.products).get? 3 = some "beta" by
        rw [vocabList_s8]; rfl) (show countOcc "beta" (tokenize (docText prodP3)) = 0 by
        rw [docText_prodP3]; decide), zero_mul]
    · rw [docVector_getD_zero (show (vocabList s8.products).get? 4 = some "common" by
        rw [vocabList_s8]; rfl) (show countOcc "common" (tokenize (docText prodP1)) = 0 by
        rw [docText_prodP1]; decide), mul_zero]
    · rw [docVector_getD_zero (show (vocabList s8.products).get? 5 = some "33" by
        rw [vocabList_s8]; rfl) (show countOcc "33" (tokenize (docText prodP3)) = 0 by
        rw [docText_prodP3]; decide), zero_mul]
    · rw [docVector_getD_zero (show (vocabList s8.products).get? 6 = some "alpha" by
        rw [vocabList_s8]; rfl) (show countOcc "alpha" (tokenize (docText prodP1)) = 0 by
        rw [docText_prodP1]; decide), mul_zero]
    · rw [docVector_getD_zero (show (vocabList s8.products).get? 7 = some "22" by
        rw [vocabList_s8]; rfl) (show countOcc "22" (tokenize (docText prodP1)) = 0 by
        rw [docText_prodP1]; decide), mul_zero]
  by_cases hc : loopSum (docVector s8.products prodP3).length
      (fun i => (docVector s8.products prodP3).getD i 0 *
        (docVector s8.products prodP3).getD i 0) = 0 ∨
      loopSum (docVector s8.products prodP3).length
      (fun i => (docVector s8.products prodP1).getD i 0 *
        (docVector s8.products prodP1).getD i 0) = 0
  · unfold cosine
    rw [if_pos hc]
  · unfold cosine
    rw [if_neg hc, hdot, zero_div]

theorem cos_p3_p2_pos :
    0 < cosine (docVector s8.products prodP3) (docVector s8.products prodP2) := by
  have hp3mem : prodP3 ∈ s8.products := by
    rw [show s8.products = [prodP1, prodP2, prodP3] from rfl]
    exact List.mem_cons_of_mem _ (List.mem_cons_of_mem _ (List.mem_cons_self _ _))
  have hp2mem : prodP2 ∈ s8.products := by
    rw [show s8.products = [prodP1, prodP2, prodP3] from rfl]
    exact List.mem_cons_of_mem _ (List.mem_cons_self _ _)
  have hne3 : tokenize (docText prodP3) ≠ [] := by rw [docText_prodP3]; decide
  have hne2 : tokenize (docText prodP2) ≠ [] := by rw [docText_prodP2]; decide
  have hn3 : sumSq (docVector s8.products prodP3) = 1 :=
    sumSq_normalizeVec (sumSq_rawVector_pos hp3mem hne3)
  have hn2 : sumSq (docVector s8.products prodP2) = 1 :=
    sumSq_normalizeVec (sumSq_rawVector_pos hp2mem hne2)
  have hlen3 : (docVector s8.products prodP3).length = 8 := by
    rw [docVector_length, vocabList_s8]
    rfl
  have hlen2 : (docVector s8.products prodP2).length = 8 := by
    rw [docVector_length, vocabList_s8]
    rfl
  have hna : loopSum (docVector s8.products prodP3).length
      (fun i => (docVector s8.products prodP3).getD i 0 *
        (docVector s8.products prodP3).getD i 0) = 1 := by
    unfold loopSum
    rw [sum_range_sq_getD, hn3]
  have hnb : loopSum (docVector s8.products prodP3).length
      (fun i => (docVector s8.products prodP2).getD i 0 *
        (docVector s8.products prodP2).getD i 0) = 1 := by
    unfold loopSum
    rw [hlen3, ← hlen2, sum_range_sq_getD, hn2]
  have hdotpos : 0 < loopSum (docVector s8.products prodP3).length
      (fun i => (docVector s8.products prodP3).getD i 0 *
        (docVector s8.products prodP2).getD i 0) := by
    unfold loopSum
    rw [hlen3]
    have hpos4 : 0 < (docVector s8.products prodP3).getD 4 0 *
        (docVector s8.products prodP2).getD 4 0 := by
      apply mul_pos
      · exact docVector_getD_pos (show (vocabList s8.products).get? 4 = some "common" by
          rw [vocabList_s8]; rfl)
          (show 1 ≤ countOcc "common" (tokenize (docText prodP3)) by
            rw [docText_prodP3]; decide) hne3
      · exact docVector_getD_pos (show (vocabList s8.products).get? 4 = some "common" by
          rw [vocabList_s8]; rfl)
          (show 1 ≤ countOcc "common" (tokenize (docText prodP2)) by
            rw [docText_prodP2]; decide) hne2
    have hmem4 : (docVector s8.products prodP3).getD 4 0 *
        (docVector s8.products prodP2).getD 4 0 ∈
        (List.range 8).map (fun i => (docVector s8.products prodP3).getD i 0 *
          (docVector s8.products prodP2).getD i 0) :=
      List.mem_map.mpr ⟨4, List.mem_range.mpr (by norm_num), rfl⟩
    have hnonneg : ∀ x ∈ (List.range 8).map (fun i =>
        (docVector s8.products prodP3).getD i 0 *
          (docVector s8.products prodP2).getD i 0), 0 ≤ x := by
      intro x hx
      rw [List.mem_map] at hx
      obtain ⟨i, _, rfl⟩ := hx
      exact mul_nonneg (docVector_getD_nonneg _ _ _) (docVector_getD_nonneg _ _ _)
    exact lt_of_lt_of_le hpos4 (List.single_le_sum hnonneg _ hmem4)
  unfold cosine
  rw [hna, hnb]
  rw [if_neg (by norm_num)]
  rw [one_mul, Real.sqrt_one, div_one]
  exact hdotpos

theorem mem_alKeys_normalize01 {m : List (String × ℝ)} {k : String}
    (h : k ∈ alKeys (normalize01 m)) : k ∈ alKeys m := by
  unfold normalize01 at h
  split_ifs at h with hle
  · simp [alKeys] at h
  · unfold alKeys at h ⊢
    rcases List.mem_map.mp h with ⟨kv', hkv', rfl⟩
    rcases List.mem_map.mp hkv' with ⟨kv, hkv, rfl⟩
    exact List.mem_map.mpr ⟨kv, hkv, rfl⟩

theorem mem_alKeys_alErase {α β : Type _} [DecidableEq α] {m : List (α × β)} {a k : α}
    (h : k ∈ alKeys (alErase m a)) : k ∈ alKeys m := by
  unfold alErase at h
  unfold alKeys at h ⊢
  rcases List.mem_map.mp h with ⟨kv, hkv, rfl⟩
  exact List.mem_map.mpr ⟨kv, List.mem_of_mem_filter hkv, rfl⟩

theorem mem_keys_mergeContent {m : List (String × ℝ)} :
    ∀ {acc : List (String × ℝ) × List (String × List String)} {tag k : String},
      k ∈ alKeys (mergeContent acc m tag).1 → k ∈ alKeys acc.1 ∨ k ∈ alKeys m := by
  induction m with
  | nil =>
    intro acc tag k h
    exact Or.inl h
  | cons kv rest ih =>
    intro acc tag k h
    have h' : k ∈ alKeys (mergeContent
        (alSet acc.1 kv.1 (max (alGetD acc.1 kv.1 0) kv.2), addReason acc.2 kv.1 tag)
        rest tag).1 := by
      unfold mergeContent at h ⊢
      rwa [List.foldl_cons] at h
    rcases ih h' with h2 | h2
    · dsimp only at h2
      by_cases hk : k = kv.1
      · right
        rw [hk]
        show kv.1 ∈ kv.1 :: alKeys rest
        exact List.mem_cons_self _ _
      · left
        rw [mem_alKeys_iff_isSome] at h2 ⊢
        rwa [alGet_alSet_ne _ _ _ _ hk] at h2
    · right
      show k ∈ kv.1 :: alKeys rest
      exact List.mem_cons_of_mem _ h2

theorem mem_keys_toMapFromArray {arr : List ScoredProduct} {k : String}
    (h : k ∈ alKeys (toMapFromArray arr)) : ∃ r ∈ arr, r.product.product_id = k := by
  suffices hs : ∀ init : List (String × ℝ),
      k ∈ alKeys (arr.foldl (fun m it => alSet m it.product.product_id it.score) init) →
        k ∈ alKeys init ∨ ∃ r ∈ arr, r.product.product_id = k by
    rcases hs [] h with h' | h'
    · simp [alKeys] at h'
    · exact h'
  clear h
  induction arr with
  | nil =>
    intro init h'
    exact Or.inl h'
  | cons r rest ih =>
    intro init h'
    rw [List.foldl_cons] at h'
    rcases ih _ h' with h2 | h2
    · by_cases hk : k = r.product.product_id
      · exact Or.inr ⟨r, List.mem_cons_self _ _, hk.symm⟩
      · left
        rw [mem_alKeys_iff_isSome] at h2 ⊢
        rwa [alGet_alSet_ne _ _ _ _ hk] at h2
    · obtain ⟨r', hr', hk'⟩ := h2
      exact Or.inr ⟨r', List.mem_cons_of_mem _ hr', hk'⟩

theorem mem_recommendByProductId {s : EngineState} {pid : String} {limit : ℕ}
    {r : ScoredProduct} (h : r ∈ recommendByProductId s pid limit) :
    ∃ p ∈ s.products, p.product_id ≠ canon pid ∧ r.product = p := by
  unfold recommendByProductId at h
  cases hvec : alGet (tfidfVectors s.products) (canon pid) with
  | none =>
    simp only [hvec] at h
    exact absurd h (List.not_mem_nil _)
  | some baseVec =>
    simp only [hvec] at h
    rw [List.mem_map] at h
    obtain ⟨x, hx, rfl⟩ := h
    have hx2 : x ∈ (s.products.filter (fun p => p.product_id ≠ canon pid)).filterMap (fun p =>
        (alGet (tfidfVectors s.products) p.product_id).map (fun v =>
          ScoredProduct.mk p (cosine baseVec v))) :=
      (List.perm_insertionSort _ _).mem_iff.mp (List.mem_of_mem_take hx)
    rw [List.mem_filterMap] at hx2
    obtain ⟨p, hp, hmap⟩ := hx2
    rw [List.mem_filter] at hp
    obtain ⟨hpmem, hpne⟩ := hp
    refine ⟨p, hpmem, by simpa using hpne, ?_⟩
    obtain ⟨v, hv, hxv⟩ := Option.map_eq_some'.mp hmap
    rw [← hxv]

theorem content_keys {s : EngineState} {opts : BlendOpts} {k : String}
    (h : k ∈ alKeys (blendContent s opts).1) (hq : ¬strTruthy opts.query) :
    ∃ sp, blendSeedPid opts = some sp ∧
      ∃ r ∈ recommendByProductId s sp maxSafeInteger, r.product.product_id = k := by
  unfold blendContent at h
  cases hsp : blendSeedPid opts with
  | none =>
    simp only [hsp] at h
    rw [if_neg hq] at h
    simp [alKeys] at h
  | some sp =>
    simp only [hsp] at h
    rw [if_neg hq] at h
    by_cases hsp0 : sp = ""
    · rw [if_neg (not_not_intro hsp0)] at h
      simp [alKeys] at h
    · rw [if_pos hsp0] at h
      refine ⟨sp, rfl, ?_⟩
      rcases mem_keys_mergeContent (mem_alKeys_alErase h) with h3 | h3
      · simp [alKeys] at h3
      · unfold contentScoresFromSeed at h3
        exact mem_keys_toMapFromArray h3

theorem blendCF_s8 (rs : List (String × List String)) : blendCF s8 optsC8 rs = ([], rs) := rfl

theorem core_s8_nil : recommendBlendCore s8 optsC8 = [] := by
  have hstep : ∀ pid ∈ dedupFS (alKeys (normalize01 (blendContent s8 optsC8).1) ++
      alKeys ([] : List (String × ℝ))),
      blendStep s8 optsC8 (normalize01 (blendContent s8 optsC8).1) []
        (blendHaveSeen s8 optsC8) (blendContent s8 optsC8).2 pid = none := by
    intro pid hpid
    rw [mem_dedupFS, List.mem_append] at hpid
    have hp12 : pid = "p1" ∨ pid = "p2" := by
      rcases hpid with hpl | hpr
      · obtain ⟨sp, hsp, r, hr, hpid'⟩ :=
          content_keys (mem_alKeys_normalize01 hpl) (by decide)
        rw [show blendSeedPid optsC8 = some "p3" from rfl] at hsp
        have hsp3 : sp = "p3" := (Option.some.inj hsp).symm
        subst hsp3
        obtain ⟨p, hpmem, hpne, hrp⟩ := mem_recommendByProductId hr
        rw [hrp] at hpid'
        have hp3 : p = prodP1 ∨ p = prodP2 ∨ p = prodP3 := by
          have hm : p ∈ [prodP1, prodP2, prodP3] := hpmem
          simpa using hm
        rcases hp3 with h | h | h
        · left
          rw [← hpid', h]
          rfl
        · right
          rw [← hpid', h]
          rfl
        · exact absurd (show p.product_id = canon "p3" by rw [h]; rfl) hpne
      · simp [alKeys] at hpr
    rcases hp12 with h | h <;> subst h
    · unfold blendStep
      rw [if_neg (show ¬(blendExcludeSeed optsC8 = true ∧
        blendSeedPid optsC8 = some "p1" ∧ "p1" ≠ "") from by decide)]
      rw [if_pos (show blendExcludeSeen optsC8 = true ∧
        "p1" ∈ blendHaveSeen s8 optsC8 from by decide)]
    · unfold blendStep
      rw [if_neg (show ¬(blendExcludeSeed optsC8 = true ∧
        blendSeedPid optsC8 = some "p2" ∧ "p2" ≠ "") from by decide)]
      rw [if_pos (show blendExcludeSeen optsC8 = true ∧
        "p2" ∈ blendHaveSeen s8 optsC8 from by decide)]
  have hcf := blendCF_s8 (blendContent s8 optsC8).2
  simp only [recommendBlendCore, hcf, normalize01_nil]
  rw [List.filterMap_eq_nil_iff.mpr hstep]
  rfl

theorem popularItems_s8 :
    popularItems s8 5 = [("p1", (0 : ℚ) + 1 + 1), ("p2", (0 : ℚ) + 1)] := by
  show ((s8.interactions.foldl (fun m ev =>
      alSet m ev.product_id (alGetD m ev.product_id 0 + WEIGHT ev.type)) []).insertionSort
        (fun x y => y.2 ≤ x.2)).take 5 =
    [("p1", (0 : ℚ) + 1 + 1), ("p2", (0 : ℚ) + 1)]
  rw [show s8.interactions.foldl (fun m ev =>
      alSet m ev.product_id (alGetD m ev.product_id 0 + WEIGHT ev.type)) [] =
      [("p1", (0 : ℚ) + 1 + 1), ("p2", (0 : ℚ) + 1)] from rfl]
  rw [show List.insertionSort (fun x y : String × ℚ => y.2 ≤ x.2)
      [("p1", (0 : ℚ) + 1 + 1), ("p2", (0 : ℚ) + 1)] =
      (if ((0 : ℚ) + 1 ≤ (0 : ℚ) + 1 + 1) then
        [("p1", (0 : ℚ) + 1 + 1), ("p2", (0 : ℚ) + 1)]
      else [("p2", (0 : ℚ) + 1), ("p1", (0 : ℚ) + 1 + 1)]) from rfl]
  rw [if_pos (show (0 : ℚ) + 1 ≤ (0 : ℚ) + 1 + 1 from by norm_num)]
  rfl

theorem blend_s8_pids :
    (recommendBlend s8 optsC8).map (fun r => r.product.product_id) = ["p1", "p2"] := by
  unfold recommendBlend
  simp only [core_s8_nil]
  rw [if_pos (show (([] : List BlendRow).isEmpty && strTruthy optsC8.userId) = true from rfl)]
  rw [show blendLimit optsC8 = 5 from rfl, popularItems_s8]
  rfl

/-- Counterexample to C8 as stated: with `alpha = 1` (pure content weight)
and `beta = 0`, `recommendBlend` on the `s8` catalog returns the rows in
the order `"p1"`, `"p2"` even though the stored content vector of `"p2"`
has strictly higher cosine similarity to the seed `"p3"` than that of
`"p1"` (which is orthogonal to it): every combined candidate was already
seen by the user, so the empty-result popularity fallback runs and orders
by popularity, not by content similarity. -/
theorem blend_fallback_breaks_content_order :
    (recommendBlend s8 optsC8).map (fun r => r.product.product_id) = ["p1", "p2"] ∧
      blendAlpha optsC8 = 1 ∧ blendBeta optsC8 = 0 ∧
      alGet (tfidfVectors s8.products) "p1" = some (docVector s8.products prodP1) ∧
      alGet (tfidfVectors s8.products) "p2" = some (docVector s8.products prodP2) ∧
      alGet (tfidfVectors s8.products) "p3" = some (docVector s8.products prodP3) ∧
      cosine (docVector s8.products prodP3) (docVector s8.products prodP1) <
        cosine (docVector s8.products prodP3) (docVector s8.products prodP2) := by
  refine ⟨blend_s8_pids, by unfold blendAlpha optsC8; norm_num,
    by unfold blendBeta optsC8; norm_num, rfl, rfl, rfl, ?_⟩
  rw [cos_p3_p1_zero]
  exact cos_p3_p2_pos

end Loja
